import Mathlib

/-!
Verification of the ferret_hypergraph recursive directed hyper-multigraph store.

This file gives a shallow embedding of the library's core data structure
(`src/hypergraph.rs` together with the split modules `src/hypergraph/add.rs`,
`src/hypergraph/remove.rs`, `src/hypergraph/get.rs`, `src/hypergraph/find.rs`,
`src/hypergraph/clear.rs`, `src/walkers/walk_ids.rs`,
`src/walkers/walk_neighbors.rs`) and proves or refutes the specification
claims about it.

Modelling conventions:
* all payload type parameters `N`, `E`, `H`, `L` are instantiated at `String`
  (the claims are about structure, never about payload contents);
* `IndexMap<usize, V>` is modelled as an insertion-ordered association list
  `List (Nat × V)`; `IndexMap::remove` is `swap_remove` (the last entry is
  moved into the hole), which is modelled faithfully;
* adjacency `Vec`s use shift removal (`Vec::remove`), modelled by `eraseIdx`;
* Rust functions that can panic (`unwrap` / `expect` / out-of-bounds
  indexing) return `Option`, where `none` means the Rust code panicked;
  recursive engines additionally take a fuel argument and return `none`
  when the fuel runs out (every concrete run below returns `some`, so fuel
  exhaustion never hides a result);
* `&mut self` methods are modelled by explicit state passing: a method that
  can fail with an error code returns the error together with the state at
  the moment of the early `return`, exactly mirroring the Rust control flow.
-/

namespace FerretHG

/-- `Direction` from `src/direction.rs`. -/
inductive Direction : Type where
  | Outgoing : Direction
  | Incoming : Direction
deriving DecidableEq

/-- `Direction::opposite`. -/
def Direction.opposite : Direction → Direction
  | .Outgoing => .Incoming
  | .Incoming => .Outgoing

/-- A global id: `Vec<usize>` in the source. -/
abbrev Path := List Nat

/-- Strict lexicographic comparison of `Vec<usize>` (Rust's derived `Ord`):
a strict prefix is smaller. -/
def pathLt : Path → Path → Bool
  | [], [] => false
  | [], _ :: _ => true
  | _ :: _, [] => false
  | a :: as, b :: bs => if a < b then true else if b < a then false else pathLt as bs

/-- `id > bound` as used in `next_id`. -/
def pathGt (p q : Path) : Bool := pathLt q p

/-- The local helper `contains_or_equals` from `add_element_in`
(`src/hypergraph/add.rs`): `one` is a prefix of (or equal to) `other`. -/
def containsOrEquals (one other : Path) : Bool :=
  if one.length ≤ other.length then one = other.take one.length else false

/-! ### IndexMap model

`IndexMap<usize, V>` is an insertion-ordered map.  `insert` replaces in
place when the key exists and appends otherwise; `remove` is `swap_remove`:
the removed slot is filled with the last entry. -/

/-- `IndexMap::get`. -/
def imGet {α : Type} (m : List (Nat × α)) (k : Nat) : Option α :=
  (m.find? (fun e => e.1 = k)).map (·.2)

/-- `IndexMap::contains_key`. -/
def imContainsKey {α : Type} (m : List (Nat × α)) (k : Nat) : Bool :=
  m.any (fun e => e.1 = k)

/-- Replace the entry holding key `k` (keys are unique in an `IndexMap`,
so the first occurrence is the occurrence). -/
def imReplaceFirst {α : Type} : List (Nat × α) → Nat → α → List (Nat × α)
  | [], _, _ => []
  | e :: es, k, v => if e.1 = k then (k, v) :: es else e :: imReplaceFirst es k v

/-- `IndexMap::insert` (replace in place, or append at the tail). -/
def imInsert {α : Type} (m : List (Nat × α)) (k : Nat) (v : α) : List (Nat × α) :=
  if imContainsKey m k then imReplaceFirst m k v else m ++ [(k, v)]

/-- In-place update of the value stored at key `k` (models `get_mut`
followed by a mutation of the pointed-to value). -/
def imModify {α : Type} : List (Nat × α) → Nat → (α → α) → List (Nat × α)
  | [], _, _ => []
  | e :: es, k, f => if e.1 = k then (k, f e.2) :: es else e :: imModify es k f

/-- `IndexMap::remove`, i.e. `swap_remove`: returns the removed value and
the map with the last entry moved into the removed slot.  `none` when the
key is absent. -/
def imSwapRemove {α : Type} (m : List (Nat × α)) (k : Nat) :
    Option (α × List (Nat × α)) :=
  match m.findIdx? (fun e => e.1 = k) with
  | none => none
  | some i =>
    match m.get? i, m.getLast? with
    | some e, some last => some (e.2, (m.set i last).dropLast)
    | _, _ => none

/-! ### Elements (`src/elements.rs`) -/

/-- `ElementType`. -/
inductive ElementType : Type where
  | Edge : ElementType
  | Hypergraph : ElementType
  | Link : ElementType
  | Node : ElementType
deriving DecidableEq

/-- `ElementValue<N, E, H, L>` with owned payloads. -/
inductive EValue : Type where
  | Edge : String → EValue
  | Hypergraph : Option String → EValue
  | Link : Option String → EValue
  | Node : String → EValue
deriving DecidableEq

def EValue.isEdge : EValue → Bool
  | .Edge _ => true
  | _ => false

def EValue.isHypergraph : EValue → Bool
  | .Hypergraph _ => true
  | _ => false

def EValue.isLink : EValue → Bool
  | .Link _ => true
  | _ => false

def EValue.isNode : EValue → Bool
  | .Node _ => true
  | _ => false

/-- `Element<N, E, H, L, Vec<usize>>`: what `add_local_element` consumes. -/
inductive Element : Type where
  | Edge : String → Element
  | Hypergraph : Option String → Element
  | Link : (source target : Path) → Option String → Element
  | Node : String → Element
deriving DecidableEq

/-- `ElementExt<N, E, H, L, Vec<usize>>`: the argument of `add_element_in`. -/
inductive ElementExt : Type where
  | Edge : (source target : Path) → String → ElementExt
  | Hypergraph : Option String → ElementExt
  | Link : (source target : Path) → Option String → ElementExt
  | Node : String → ElementExt
deriving DecidableEq

def ElementExt.isNode : ElementExt → Bool
  | .Node _ => true
  | _ => false

def ElementExt.isHypergraph : ElementExt → Bool
  | .Hypergraph _ => true
  | _ => false

def ElementExt.isEdge : ElementExt → Bool
  | .Edge _ _ _ => true
  | _ => false

def ElementExt.isLink : ElementExt → Bool
  | .Link _ _ _ => true
  | _ => false

/-- `ElementExt::source`. -/
def ElementExt.source : ElementExt → Option Path
  | .Edge s _ _ => some s
  | .Link s _ _ => some s
  | _ => none

/-- `ElementExt::target`. -/
def ElementExt.target : ElementExt → Option Path
  | .Edge _ t _ => some t
  | .Link _ t _ => some t
  | _ => none

/-- `ElementExt` into `Element` (the `From` impl in `src/elements.rs`). -/
def ElementExt.toElement : ElementExt → Element
  | .Edge _ _ v => .Edge v
  | .Hypergraph v => .Hypergraph v
  | .Link s t v => .Link s t v
  | .Node v => .Node v

/-! ### Errors (`src/errors.rs`) -/

/-- `GetError` (collapsed: each variant keeps the offending path where the
Rust variant wraps a path-carrying struct). -/
inductive GetErr : Type where
  | NoEdge : Path → GetErr
  | NoElement : Path → GetErr
  | NoElementLinkable : Path → GetErr
  | NoHypergraph : Path → GetErr
  | NoLink : Path → GetErr
  | NoNode : Path → GetErr
  | RootHypergraph : GetErr
deriving DecidableEq

/-- `AddError`.  `NoSource`/`NoTarget` wrap `NoElementLinkable(path)`. -/
inductive AddErr : Type where
  | EmptySource : AddErr
  | EmptyTarget : AddErr
  | IncoherentLink : Path → Path → Path → AddErr
  | LinkSource : Path → AddErr
  | LinkTarget : Path → AddErr
  | NoLocation : Path → AddErr
  | NoSource : Path → AddErr
  | NoTarget : Path → AddErr
  | Unlinkable : Path → Path → AddErr
deriving DecidableEq

/-- `RemoveError`. -/
inductive RemErr : Type where
  | NoEdge : Path → RemErr
  | NoElement : Path → RemErr
  | NoHypergraph : Path → RemErr
  | NoLink : Path → RemErr
  | NoNode : Path → RemErr
deriving DecidableEq

/-- `FindError` (only the variants used by `find_link_id`). -/
inductive FindErr : Type where
  | NoLink : FindErr
  | NoLocation : Path → FindErr
deriving DecidableEq

/-- Decidable equality for `Except`, so that concrete results can be
checked by `decide`. -/
instance {ε α : Type} [DecidableEq ε] [DecidableEq α] : DecidableEq (Except ε α) :=
  fun a b =>
    match a, b with
    | .error e, .error f =>
      if h : e = f then isTrue (by rw [h]) else isFalse (fun c => by cases c; exact h rfl)
    | .ok x, .ok y =>
      if h : x = y then isTrue (by rw [h]) else isFalse (fun c => by cases c; exact h rfl)
    | .error _, .ok _ => isFalse (fun c => by cases c)
    | .ok _, .error _ => isFalse (fun c => by cases c)

/-! ### The hypergraph structure (`src/hypergraph.rs`)

`class` is the `Ty` marker: `true` models `Main`, `false` models `Sub`
(`src/hypergraph/classes.rs`). -/

/-- `Hypergraph<N, E, H, L, Ty>` with `String` payloads. -/
inductive Hyp : Type where
  | mk :
    (value : Option String) →
    (nodes : List (Nat × (String × List (Path × Direction)))) →
    (edges : List (Nat × (String × List (Path × Direction)))) →
    (links : List (Nat × (Option String × Path × Path))) →
    (hgs : List (Nat × (Hyp × List (Path × Direction)))) →
    (nextIdC : Nat) →
    (classIsMainT : Bool) →
    Hyp

def Hyp.value : Hyp → Option String
  | .mk v _ _ _ _ _ _ => v

def Hyp.nodes : Hyp → List (Nat × (String × List (Path × Direction)))
  | .mk _ n _ _ _ _ _ => n

def Hyp.edges : Hyp → List (Nat × (String × List (Path × Direction)))
  | .mk _ _ e _ _ _ _ => e

def Hyp.links : Hyp → List (Nat × (Option String × Path × Path))
  | .mk _ _ _ l _ _ _ => l

def Hyp.hgs : Hyp → List (Nat × (Hyp × List (Path × Direction)))
  | .mk _ _ _ _ g _ _ => g

def Hyp.nextIdC : Hyp → Nat
  | .mk _ _ _ _ _ n _ => n

def Hyp.classIsMainT : Hyp → Bool
  | .mk _ _ _ _ _ _ c => c

def Hyp.withNodes (h : Hyp) (x : List (Nat × (String × List (Path × Direction)))) : Hyp :=
  match h with
  | .mk v _ e l g n c => .mk v x e l g n c

def Hyp.withEdges (h : Hyp) (x : List (Nat × (String × List (Path × Direction)))) : Hyp :=
  match h with
  | .mk v nd _ l g n c => .mk v nd x l g n c

def Hyp.withLinks (h : Hyp) (x : List (Nat × (Option String × Path × Path))) : Hyp :=
  match h with
  | .mk v nd e _ g n c => .mk v nd e x g n c

def Hyp.withHgs (h : Hyp) (x : List (Nat × (Hyp × List (Path × Direction)))) : Hyp :=
  match h with
  | .mk v nd e l _ n c => .mk v nd e l x n c

def Hyp.withNextId (h : Hyp) (x : Nat) : Hyp :=
  match h with
  | .mk v nd e l g _ c => .mk v nd e l g x c

/-- `Hypergraph::new` for the `Main` marker. -/
def Hyp.newMain : Hyp := .mk none [] [] [] [] 0 true

/-- `Hypergraph::<.., Sub>::new()` followed by `set_value(value)`, as built
by `add_local_element` for the `Hypergraph` variant. -/
def Hyp.newSub (v : Option String) : Hyp := .mk v [] [] [] [] 0 false

/-! ### Navigation -/

/-- Descends through the nested-hypergraph maps: `descend h [] = h`, and
a non-empty path follows each segment through `hypergraphs`.  This is the
common core of `subhypergraph` and `hypergraph` (`src/hypergraph/get.rs`):
`hypergraph(id)` is `descend`, and `subhypergraph(id)` is `descend`
restricted to non-empty ids. -/
def descend : Hyp → Path → Option Hyp
  | h, [] => some h
  | h, k :: rest =>
    match imGet h.hgs k with
    | none => none
    | some (sub, _) => descend sub rest

/-- `hypergraph_of` (`src/hypergraph/get.rs`): the hypergraph in which `id`
lives, i.e. `descend` on `id` minus its last segment; the empty id fails
with `RootHypergraph`. -/
def hypergraphOf (h : Hyp) (id : Path) : Except GetErr Hyp :=
  match id with
  | [] => .error .RootHypergraph
  | _ =>
    match descend h id.dropLast with
    | none => .error (.NoHypergraph id.dropLast)
    | some lv => .ok lv

/-- `hypergraph_mut` / `hypergraph_of_mut` modelled as descend-and-rebuild:
apply `f` to the level addressed by `p` (the whole structure when `p` is
empty); `none` when some segment is missing (the Rust code would have
returned an error or panicked on `unwrap`). -/
def modifyAt : Hyp → Path → (Hyp → Hyp) → Option Hyp
  | h, [], f => some (f h)
  | h, k :: rest, f =>
    match imGet h.hgs k with
    | none => none
    | some (sub, adj) =>
      (modifyAt sub rest f).map (fun sub' => h.withHgs (imInsert h.hgs k (sub', adj)))

/-- Like `modifyAt` but the update at the level can fail (panic) and
returns an extracted value (models `hypergraph_of_mut(..)` followed by a
fallible local operation such as `IndexMap::remove().unwrap()`). -/
def extractAt {β : Type} : Hyp → Path → (Hyp → Option (β × Hyp)) → Option (β × Hyp)
  | h, [], f => f h
  | h, k :: rest, f =>
    match imGet h.hgs k with
    | none => none
    | some (sub, adj) =>
      (extractAt sub rest f).map
        (fun r => (r.1, h.withHgs (imInsert h.hgs k (r.2, adj))))

/-! ### Local insertion (`src/hypergraph.rs`, `add_local_element` and
`add_local_neighbor_unchecked`) -/

/-- `add_local_element`: insert at the current `next_id`, bump the counter,
return the updated level and the assigned local id. -/
def addLocalElement (h : Hyp) (e : Element) : Hyp × Nat :=
  let k := h.nextIdC
  let h' :=
    match e with
    | .Edge v => h.withEdges (imInsert h.edges k (v, []))
    | .Hypergraph v => h.withHgs (imInsert h.hgs k (Hyp.newSub v, []))
    | .Link s t v => h.withLinks (imInsert h.links k (v, s, t))
    | .Node v => h.withNodes (imInsert h.nodes k (v, []))
  (h'.withNextId (k + 1), k)

/-- `add_local_neighbor_unchecked`: push `info` onto the adjacency list of
the local element `k`, trying edges, then hypergraphs, then nodes; `none`
models the `panic!` for an invalid local id. -/
def addLocalNeighbor (h : Hyp) (k : Nat) (info : Path × Direction) : Option Hyp :=
  if imContainsKey h.edges k then
    some (h.withEdges (imModify h.edges k (fun ev => (ev.1, ev.2 ++ [info]))))
  else if imContainsKey h.hgs k then
    some (h.withHgs (imModify h.hgs k (fun gv => (gv.1, gv.2 ++ [info]))))
  else if imContainsKey h.nodes k then
    some (h.withNodes (imModify h.nodes k (fun nv => (nv.1, nv.2 ++ [info]))))
  else none

/-! ### Existence tests (`src/hypergraph.rs`, the `Inform` impl) -/

/-- `contains_node`: empty id is false; otherwise resolve the owning level
via `hypergraph(id minus last)` and check the nodes map. -/
def containsNode (h : Hyp) (id : Path) : Bool :=
  match id.getLast? with
  | none => false
  | some k =>
    match descend h id.dropLast with
    | none => false
    | some lv => imContainsKey lv.nodes k

/-- `contains_edge`. -/
def containsEdge (h : Hyp) (id : Path) : Bool :=
  match id.getLast? with
  | none => false
  | some k =>
    match descend h id.dropLast with
    | none => false
    | some lv => imContainsKey lv.edges k

/-- `contains_link`. -/
def containsLink (h : Hyp) (id : Path) : Bool :=
  match id.getLast? with
  | none => false
  | some k =>
    match descend h id.dropLast with
    | none => false
    | some lv => imContainsKey lv.links k

/-- `contains_subhypegraph`: every segment resolves through the nested
hypergraph maps (the Rust loop is exactly `descend` on a non-empty id). -/
def containsSubhypergraph (h : Hyp) (id : Path) : Bool :=
  match id with
  | [] => false
  | _ => (descend h id).isSome

/-- `contains_hypergraph`: the empty id (the structure itself) or a nested
hypergraph. -/
def containsHypergraph (h : Hyp) (id : Path) : Bool :=
  id.isEmpty || containsSubhypergraph h id

/-- `contains`: the empty id always exists; otherwise the last segment must
be a key of one of the four maps of its owning level. -/
def contains (h : Hyp) (id : Path) : Bool :=
  match id.getLast? with
  | none => true
  | some k =>
    match descend h id.dropLast with
    | none => false
    | some lv =>
      imContainsKey lv.edges k || imContainsKey lv.links k ||
        imContainsKey lv.hgs k || imContainsKey lv.nodes k

/-- `contains_linkable`: non-empty and an edge, hypergraph or node. -/
def containsLinkable (h : Hyp) (id : Path) : Bool :=
  !id.isEmpty &&
    (containsEdge h id || containsHypergraph h id || containsNode h id)

/-! ### Value access (`src/hypergraph/get.rs`) -/

/-- `element_value`: the empty id is the hypergraph itself; otherwise look
the last segment up in the owning level's maps, in the order edges,
hypergraphs, links, nodes. -/
def elementValueE (h : Hyp) (id : Path) : Except GetErr EValue :=
  match id.getLast? with
  | none => .ok (.Hypergraph h.value)
  | some k =>
    match hypergraphOf h id with
    | .error e => .error e
    | .ok lv =>
      match imGet lv.edges k with
      | some ev => .ok (.Edge ev.1)
      | none =>
        match imGet lv.hgs k with
        | some gv => .ok (.Hypergraph gv.1.value)
        | none =>
          match imGet lv.links k with
          | some lkv => .ok (.Link lkv.1)
          | none =>
            match imGet lv.nodes k with
            | some nv => .ok (.Node nv.1)
            | none => .error (.NoElement id)

/-- `element_type`. -/
def elementTypeE (h : Hyp) (id : Path) : Except GetErr ElementType :=
  (elementValueE h id).map
    (fun v =>
      match v with
      | .Edge _ => .Edge
      | .Hypergraph _ => .Hypergraph
      | .Link _ => .Link
      | .Node _ => .Node)

/-- `links_of`: adjacency list of a linkable element. -/
def linksOfE (h : Hyp) (id : Path) : Except GetErr (List (Path × Direction)) :=
  if !containsLinkable h id then .error (.NoElementLinkable id)
  else
    match id.getLast? with
    | none => .error (.NoElementLinkable id)
    | some k =>
      match hypergraphOf h id with
      | .error e => .error e
      | .ok lv =>
        match imGet lv.edges k with
        | some ev => .ok ev.2
        | none =>
          match imGet lv.hgs k with
          | some gv => .ok gv.2
          | none =>
            match imGet lv.nodes k with
            | some nv => .ok nv.2
            | none => .error (.NoElementLinkable id)

/-- `link_endpoints`: the `(source, target)` pair of a link. -/
def linkEndpointsE (h : Hyp) (id : Path) : Except GetErr (Path × Path) :=
  if !containsLink h id then .error (.NoLink id)
  else
    match id.getLast? with
    | none => .error (.NoLink id)
    | some k =>
      match hypergraphOf h id with
      | .error e => .error e
      | .ok lv =>
        match imGet lv.links k with
        | some lkv => .ok (lkv.2.1, lkv.2.2)
        | none => .error (.NoLink id)

/-! ### Add engine (`src/hypergraph/add.rs`) -/

/-- `hypergraph_of_mut(&p).unwrap().add_local_neighbor_unchecked(p.last(), info)`
as used in the link branch of `add_element_in_unchecked`. -/
def pushAdj (h : Hyp) (p : Path) (info : Path × Direction) : Option Hyp :=
  match p.getLast? with
  | none => none
  | some k =>
    (extractAt h p.dropLast
        (fun lv => (addLocalNeighbor lv k info).map (fun lv' => ((), lv')))).map
      (·.2)

/-- `links_of_mut(&p).unwrap().push(info)` as used in the edge branch of
`add_element_in_unchecked`: same push, but behind the `contains_linkable`
guard of `links_of_mut`. -/
def pushAdjChecked (h : Hyp) (p : Path) (info : Path × Direction) : Option Hyp :=
  if !containsLinkable h p then none else pushAdj h p info

/-- `add_element_in_unchecked`. -/
def addElementInUnchecked (h : Hyp) (e : ElementExt) (loc : Path) :
    Option (Path × Hyp) :=
  match e with
  | .Node _ | .Hypergraph _ =>
    match descend h loc with
    | none => none
    | some lv =>
      let lid := lv.nextIdC
      (modifyAt h loc (fun l => (addLocalElement l e.toElement).1)).map
        (fun h' => (loc ++ [lid], h'))
  | .Edge s t v =>
    match descend h loc with
    | none => none
    | some lv =>
      let eid := lv.nextIdC
      let edgeId := loc ++ [eid]
      let linkSourceId := loc ++ [eid + 1]
      let linkTargetId := loc ++ [eid + 2]
      match modifyAt h loc (fun l =>
          let l1 := (addLocalElement l (.Edge v)).1
          let l2 := (addLocalElement l1 (.Link s edgeId none)).1
          (addLocalElement l2 (.Link edgeId t none)).1) with
      | none => none
      | some h1 =>
        match pushAdjChecked h1 edgeId (linkSourceId, .Incoming) with
        | none => none
        | some h2 =>
          match pushAdjChecked h2 edgeId (linkTargetId, .Outgoing) with
          | none => none
          | some h3 =>
            match pushAdjChecked h3 s (linkSourceId, .Outgoing) with
            | none => none
            | some h4 =>
              (pushAdjChecked h4 t (linkTargetId, .Incoming)).map
                (fun h5 => (edgeId, h5))
  | .Link s t v =>
    match descend h loc with
    | none => none
    | some lv =>
      let lid := loc ++ [lv.nextIdC]
      match modifyAt h loc (fun l => (addLocalElement l (.Link s t v)).1) with
      | none => none
      | some h1 =>
        match pushAdj h1 s (lid, .Outgoing) with
        | none => none
        | some h2 =>
          (pushAdj h2 t (lid, .Incoming)).map (fun h3 => (lid, h3))

/-- `add_element_in`: the full validation pipeline followed by
`add_element_in_unchecked`.  The returned pair carries the state so that an
early error return demonstrably leaves the structure untouched. -/
def addElementIn (h : Hyp) (e : ElementExt) (loc : Path) :
    Option (Except AddErr Path × Hyp) :=
  if !containsHypergraph h loc then some (.error (.NoLocation loc), h)
  else if e.isNode || e.isHypergraph then
    (addElementInUnchecked h e loc).map (fun r => (.ok r.1, r.2))
  else
    match e.source, e.target with
    | some s, some t =>
      if s.isEmpty then some (.error .EmptySource, h)
      else
        match elementValueE h s with
        | .error _ => some (.error (.NoSource s), h)
        | .ok sv =>
          if sv.isLink then some (.error (.LinkSource s), h)
          else if sv.isEdge && e.isEdge then some (.error (.Unlinkable s t), h)
          else if t.isEmpty then some (.error .EmptyTarget, h)
          else
            match elementValueE h t with
            | .error _ => some (.error (.NoSource t), h)
            | .ok tv =>
              if tv.isLink then some (.error (.LinkTarget t), h)
              else if tv.isEdge && e.isEdge then
                some (.error (.Unlinkable s t), h)
              else if sv.isEdge && tv.isEdge && e.isLink then
                some (.error (.Unlinkable s t), h)
              else if e.isLink && (sv.isNode || sv.isHypergraph) &&
                  (tv.isNode || tv.isHypergraph) then
                some (.error (.Unlinkable s t), h)
              else if !(containsOrEquals loc s && containsOrEquals loc t) then
                some (.error (.IncoherentLink loc s t), h)
              else
                (addElementInUnchecked h e loc).map (fun r => (.ok r.1, r.2))
    | _, _ => none

/-- `add_node_in`. -/
def addNodeIn (h : Hyp) (v : String) (loc : Path) :
    Option (Except AddErr Path × Hyp) :=
  addElementIn h (.Node v) loc

/-- `add_edge_in`. -/
def addEdgeIn (h : Hyp) (s t : Path) (v : String) (loc : Path) :
    Option (Except AddErr Path × Hyp) :=
  addElementIn h (.Edge s t v) loc

/-- `add_link_in`. -/
def addLinkIn (h : Hyp) (s t : Path) (v : Option String) (loc : Path) :
    Option (Except AddErr Path × Hyp) :=
  addElementIn h (.Link s t v) loc

/-- `add_hypergraph_in`. -/
def addHypergraphIn (h : Hyp) (v : Option String) (loc : Path) :
    Option (Except AddErr Path × Hyp) :=
  addElementIn h (.Hypergraph v) loc

/-! ### Identifier traversal (`src/hypergraph.rs` `id_bound`,
`src/hypergraph/get.rs` `next_id`, `src/walkers/walk_ids.rs`) -/

/-- `id_bound`: `[next_id]` extended with the bound of the **last** nested
hypergraph in insertion order, if any.  Fueled because the recursion
descends the structure; `none` means the fuel ran out. -/
def idBoundF : Nat → Hyp → Option (List Nat)
  | 0, _ => none
  | fuel + 1, h =>
    match h.hgs.getLast? with
    | none => some [h.nextIdC]
    | some e => (idBoundF fuel e.2.1).map (fun rest => h.nextIdC :: rest)

/-- `next_id`: the smallest valid id greater than `id` according to the
(buggy in general) bound-guided scan of the source.  Result layers:
`none` = panic (the `bound[id.len() - 1]` indexing) or fuel exhaustion;
`some none` = the Rust `None` (no further id); `some (some p)` = `Some(p)`. -/
def nextIdF : Nat → Hyp → Path → Option (Option Path)
  | 0, _, _ => none
  | fuel + 1, h, id =>
    match idBoundF (fuel + 1) h with
    | none => none
    | some bound =>
      if pathGt id bound then some none
      else
        let step : Option (Option Path) :=
          match id.getLast? with
          | none => some (some [0])
          | some lastSeg =>
            match elementTypeE h id with
            | .error _ =>
              match bound.get? (id.length - 1) with
              | none => none
              | some b =>
                if lastSeg + 1 ≥ b then
                  let popped := id.dropLast
                  match popped.getLast? with
                  | none => some none
                  | some pl => some (some (popped.dropLast ++ [pl + 1]))
                else some (some (id.dropLast ++ [lastSeg + 1]))
            | .ok ty =>
              match ty with
              | .Edge | .Link | .Node => some (some (id.dropLast ++ [lastSeg + 1]))
              | .Hypergraph => some (some (id ++ [0]))
        match step with
        | none => none
        | some none => some none
        | some (some id') =>
          if contains h id' then some (some id') else nextIdF fuel h id'

/-- One step of the `WalkIds` walker (`walk_next`): emits the current
candidate when it still exists, otherwise advances it. -/
def walkIdsNextF : Nat → Hyp → Option Path → Option (Option Path × Option Path)
  | 0, _, _ => none
  | fuel + 1, h, st =>
    match st with
    | none => some (none, none)
    | some id =>
      if contains h id then
        match nextIdF (fuel + 1) h id with
        | none => none
        | some nxt => some (some id, nxt)
      else
        match nextIdF (fuel + 1) h id with
        | none => none
        | some nxt => walkIdsNextF fuel h nxt

/-- Drives the `WalkIds` walker to exhaustion, as `ids().collect()` does. -/
def idsAuxF : Nat → Hyp → Option Path → Option (List Path)
  | 0, _, _ => none
  | fuel + 1, h, st =>
    match walkIdsNextF (fuel + 1) h st with
    | none => none
    | some (none, _) => some []
    | some (some id, st') => (idsAuxF fuel h st').map (fun rest => id :: rest)

/-- `ids().collect::<Vec<_>>()`: the full enumeration, starting from the
empty candidate. -/
def idsListF (fuel : Nat) (h : Hyp) : Option (List Path) :=
  idsAuxF fuel h (some [])

/-! ### Find (`src/hypergraph/find.rs`) -/

/-- `find_link_id`: scan the links map of the level at `location` (in
insertion order) for an exact `(value, source, target)` match. -/
def findLinkIdF (h : Hyp) (s t : Path) (v : Option String) (loc : Path) :
    Except FindErr Path :=
  if !containsHypergraph h loc then .error (.NoLocation loc)
  else
    match descend h loc with
    | none => .error (.NoLocation loc)
    | some lv =>
      match lv.links.find? (fun e => e.2.1 = v && e.2.2.1 = s && e.2.2.2 = t) with
      | some e => .ok (loc ++ [e.1])
      | none => .error .NoLink

/-! ### Remove engine (`src/hypergraph/remove.rs`)

The removal functions are mutually recursive (link removal can cascade
into edge removal and vice versa), so they take a fuel argument; `none`
means fuel exhaustion or a Rust panic (`unwrap` / `expect`).  Errors are
returned together with the state at the moment of the early return, which
is how `?` behaves on `&mut self`. -/

mutual

/-- `remove`: dispatch on the element type. -/
def removeF : Nat → Hyp → Path → Option (Except RemErr EValue × Hyp)
  | 0, _, _ => none
  | fuel + 1, h, id =>
    if !contains h id then some (.error (.NoElement id), h)
    else
      match elementTypeE h id with
      | .error _ => none
      | .ok ty =>
        match ty with
        | .Edge =>
          match removeEdgeF fuel h id with
          | none => none
          | some (.error e, h') => some (.error e, h')
          | some (.ok v, h') => some (.ok (.Edge v), h')
        | .Hypergraph =>
          match removeSubF fuel h id with
          | none => none
          | some (.error e, h') => some (.error e, h')
          | some (.ok v, h') => some (.ok (.Hypergraph v), h')
        | .Link =>
          match removeLinkF fuel h id with
          | none => none
          | some (.error e, h') => some (.error e, h')
          | some (.ok v, h') => some (.ok (.Link v), h')
        | .Node =>
          match removeNodeF fuel h id with
          | none => none
          | some (.error e, h') => some (.error e, h')
          | some (.ok v, h') => some (.ok (.Node v), h')

/-- `remove_edge`: remove the adjacency links beyond the first two, delete
the edge's slot, then remove the two remaining links by hand from the
**edge's own level** and detach their far endpoints. -/
def removeEdgeF : Nat → Hyp → Path → Option (Except RemErr String × Hyp)
  | 0, _, _ => none
  | fuel + 1, h, id =>
    if !containsEdge h id then some (.error (.NoEdge id), h)
    else
      match linksOfE h id with
      | .error _ => none
      | .ok edgeLinks =>
        match removeLinksLoopF fuel h ((edgeLinks.drop 2).map (·.1)) with
        | none => none
        | some (.error e, h1) => some (.error e, h1)
        | some (.ok _, h1) =>
          match id.getLast? with
          | none => none
          | some localId =>
            match extractAt h1 id.dropLast (fun lv =>
                (imSwapRemove lv.edges localId).map
                  (fun r => (r.1, lv.withEdges r.2))) with
            | none => none
            | some ((edgeVal, remaining), h2) =>
              match removeEdgeHandsF fuel h2 id remaining with
              | none => none
              | some h3 => some (.ok edgeVal, h3)

/-- The by-hand loop at the end of `remove_edge`: for each remaining
adjacency entry, remove the link's slot from the level owning the **edge**
(`self.hypergraph_of_mut(id)`), then detach the far endpoint. -/
def removeEdgeHandsF :
    Nat → Hyp → Path → List (Path × Direction) → Option Hyp
  | 0, _, _, _ => none
  | _ + 1, h, _, [] => some h
  | fuel + 1, h, id, (linkId, dir) :: rest =>
    match linkId.getLast? with
    | none => none
    | some localL =>
      match extractAt h id.dropLast (fun lv =>
          (imSwapRemove lv.links localL).map
            (fun r => (r.1, lv.withLinks r.2))) with
      | none => none
      | some ((_, srcId, tgtId), h1) =>
        let far := match dir with
          | .Incoming => srcId
          | .Outgoing => tgtId
        match removeLinkFromF fuel h1 linkId far with
        | none => none
        | some h2 => removeEdgeHandsF fuel h2 id rest

/-- `remove_subhypergraph`: remove the adjacency links, then remove every
interior element following a snapshot of the sub-hypergraph's `ids()`
(skipping the empty id), then delete the slot. -/
def removeSubF : Nat → Hyp → Path → Option (Except RemErr (Option String) × Hyp)
  | 0, _, _ => none
  | fuel + 1, h, id =>
    if !containsSubhypergraph h id then some (.error (.NoHypergraph id), h)
    else
      match linksOfE h id with
      | .error _ => none
      | .ok subLinks =>
        match removeLinksLoopF fuel h (subLinks.map (·.1)) with
        | none => none
        | some (.error e, h1) => some (.error e, h1)
        | some (.ok _, h1) =>
          match descend h1 id with
          | none => none
          | some sub =>
            match idsListF (fuel + 1) sub with
            | none => none
            | some allIds =>
              match removeManyF fuel h1 ((allIds.drop 1).map (fun p => id ++ p)) with
              | none => none
              | some (.error e, h2) => some (.error e, h2)
              | some (.ok _, h2) =>
                match id.getLast? with
                | none => none
                | some localId =>
                  match extractAt h2 id.dropLast (fun lv =>
                      (imSwapRemove lv.hgs localId).map
                        (fun r => (r.1, lv.withHgs r.2))) with
                  | none => none
                  | some ((subH, _), h3) => some (.ok subH.value, h3)

/-- `remove_link`: check the link and both endpoints, delete the slot,
then detach the link from both endpoints. -/
def removeLinkF : Nat → Hyp → Path → Option (Except RemErr (Option String) × Hyp)
  | 0, _, _ => none
  | fuel + 1, h, id =>
    if !containsLink h id then some (.error (.NoLink id), h)
    else
      match linkEndpointsE h id with
      | .error _ => none
      | .ok (s, t) =>
        if !containsLinkable h s then some (.error (.NoElement s), h)
        else if !containsLinkable h t then some (.error (.NoElement t), h)
        else
          match id.getLast? with
          | none => none
          | some localId =>
            match extractAt h id.dropLast (fun lv =>
                (imSwapRemove lv.links localId).map
                  (fun r => (r.1, lv.withLinks r.2))) with
            | none => none
            | some ((linkVal, srcId, tgtId), h1) =>
              match removeLinkFromF fuel h1 id srcId with
              | none => none
              | some h2 =>
                match removeLinkFromF fuel h2 id tgtId with
                | none => none
                | some h3 => some (.ok linkVal, h3)

/-- `remove_link_from_unchecked`: drop the entry for `linkId` from the
adjacency list of `id`; an edge whose list falls below two entries is
removed in cascade.  The hypergraph branch compares each stored link id
against `id` itself (the endpoint), faithfully reproducing the source. -/
def removeLinkFromF : Nat → Hyp → Path → Path → Option Hyp
  | 0, _, _, _ => none
  | fuel + 1, h, linkId, id =>
    match id.getLast? with
    | none => none
    | some localId =>
      match elementTypeE h id with
      | .error _ => none
      | .ok ty =>
        match ty with
        | .Edge =>
          match extractAt h id.dropLast (fun lv =>
              match imGet lv.edges localId with
              | none => none
              | some (v, adj) =>
                match adj.findIdx? (fun entry => entry.1 = linkId) with
                | none => none
                | some i =>
                  let adj' := adj.eraseIdx i
                  some (adj'.length,
                    lv.withEdges (imModify lv.edges localId (fun _ => (v, adj'))))) with
          | none => none
          | some (newLen, h1) =>
            if newLen < 2 then
              match removeEdgeF fuel h1 id with
              | some (.ok _, h2) => some h2
              | _ => none
            else some h1
        | .Hypergraph =>
          match extractAt h id.dropLast (fun lv =>
              match imGet lv.hgs localId with
              | none => none
              | some (sub, adj) =>
                match adj.findIdx? (fun entry => entry.1 = id) with
                | none => none
                | some i =>
                  some ((),
                    lv.withHgs (imModify lv.hgs localId
                      (fun _ => (sub, adj.eraseIdx i))))) with
          | none => none
          | some (_, h1) => some h1
        | .Link => none
        | .Node =>
          match extractAt h id.dropLast (fun lv =>
              match imGet lv.nodes localId with
              | none => none
              | some (v, adj) =>
                match adj.findIdx? (fun entry => entry.1 = linkId) with
                | none => none
                | some i =>
                  some ((),
                    lv.withNodes (imModify lv.nodes localId
                      (fun _ => (v, adj.eraseIdx i))))) with
          | none => none
          | some (_, h1) => some h1

/-- `remove_node`: remove every adjacent link, then delete the slot. -/
def removeNodeF : Nat → Hyp → Path → Option (Except RemErr String × Hyp)
  | 0, _, _ => none
  | fuel + 1, h, id =>
    if !containsNode h id then some (.error (.NoNode id), h)
    else
      match linksOfE h id with
      | .error _ => none
      | .ok nodeLinks =>
        match removeLinksLoopF fuel h (nodeLinks.map (·.1)) with
        | none => none
        | some (.error e, h1) => some (.error e, h1)
        | some (.ok _, h1) =>
          match id.getLast? with
          | none => none
          | some localId =>
            match extractAt h1 id.dropLast (fun lv =>
                (imSwapRemove lv.nodes localId).map
                  (fun r => (r.1, lv.withNodes r.2))) with
            | none => none
            | some ((nodeVal, _), h2) => some (.ok nodeVal, h2)

/-- A `for` loop calling `remove_link(..)?` on each id. -/
def removeLinksLoopF : Nat → Hyp → List Path → Option (Except RemErr Unit × Hyp)
  | 0, _, _ => none
  | _ + 1, h, [] => some (.ok (), h)
  | fuel + 1, h, lid :: rest =>
    match removeLinkF fuel h lid with
    | none => none
    | some (.error e, h1) => some (.error e, h1)
    | some (.ok _, h1) => removeLinksLoopF fuel h1 rest

/-- A `for` loop calling `remove(..)?` on each id. -/
def removeManyF : Nat → Hyp → List Path → Option (Except RemErr Unit × Hyp)
  | 0, _, _ => none
  | _ + 1, h, [] => some (.ok (), h)
  | fuel + 1, h, id :: rest =>
    match removeF fuel h id with
    | none => none
    | some (.error e, h1) => some (.error e, h1)
    | some (.ok _, h1) => removeManyF fuel h1 rest

end

/-! ### Clear (`src/hypergraph/clear.rs`) and class markers
(`src/hypergraph/classes.rs`, `src/traits.rs`, `src/hypergraph.rs`) -/

/-- `clear` on a `Main` hypergraph: empty the four maps; the payload value
and the `next_id` counter are untouched. -/
def clearF (h : Hyp) : Hyp :=
  (((h.withEdges []).withHgs []).withLinks []).withNodes []

/-- `HypergraphClass::is_main` of the marker: `Main` answers `true`, `Sub`
keeps the trait default `false`. -/
def classIsMain (isMainMarker : Bool) : Bool := isMainMarker

/-- `HypergraphClass::is_sub` of the marker: `Sub` answers `true`, `Main`
keeps the trait default `false`. -/
def classIsSub (isMainMarker : Bool) : Bool := !isMainMarker

/-- `Hypergraph::is_main` (`src/hypergraph.rs`): `self.class().is_main()`. -/
def isMainF (h : Hyp) : Bool := classIsMain h.classIsMainT

/-- `Hypergraph::is_sub` (`src/hypergraph.rs`): the body also reads
`self.class().is_main()`. -/
def isSubF (h : Hyp) : Bool := classIsMain h.classIsMainT

/-! ### Neighbor walker (`src/walkers/walk_neighbors.rs`) -/

/-- `WalkNeighbors::walk_next`, threading the cursor explicitly.  Result:
`none` = panic (the `link_endpoints` unwrap); `some (none, n')` = the walk
returned `None` leaving the cursor at `n'`; `some (some p, n')` = emitted
the neighbor `p`. -/
def walkNextNbF : Nat → Direction → Nat → Path → Hyp → Option (Option Path × Nat)
  | 0, _, _, _, _ => none
  | fuel + 1, d, n, srcId, h =>
    match linksOfE h srcId with
    | .error _ => some (none, n)
    | .ok links =>
      match links.get? n with
      | none => some (none, n)
      | some (linkId, entryDir) =>
        if entryDir = d then
          match linkEndpointsE h linkId with
          | .error _ => none
          | .ok (s, t) =>
            match d with
            | .Outgoing => some (some t, n + 1)
            | .Incoming => some (some s, n + 1)
        else walkNextNbF fuel d (n + 1) srcId h

/-! ### Cell views

Every read of the structure factors through the level that owns the last
path segment.  The following views name those reads once, so that the
effect of a mutation on an arbitrary read can be stated uniformly. -/

/-- The adjacency list stored at local id `k` of a level, scanning edges,
hypergraphs, nodes — the cascade shared by `links_of` and
`add_local_neighbor_unchecked`. -/
def lookupAdj (lv : Hyp) (k : Nat) : Option (List (Path × Direction)) :=
  match imGet lv.edges k with
  | some ev => some ev.2
  | none =>
    match imGet lv.hgs k with
    | some gv => some gv.2
    | none => (imGet lv.nodes k).map (·.2)

/-- The adjacency list of the element addressed by `p` (its owning level's
`lookupAdj` at the last segment). -/
def adjOf (h : Hyp) (p : Path) : Option (List (Path × Direction)) :=
  match p.getLast? with
  | none => none
  | some k =>
    match descend h p.dropLast with
    | none => none
    | some lv => lookupAdj lv k

/-- The link slot addressed by `p`. -/
def linkOf (h : Hyp) (p : Path) : Option (Option String × Path × Path) :=
  match p.getLast? with
  | none => none
  | some k =>
    match descend h p.dropLast with
    | none => none
    | some lv => imGet lv.links k

/-- The component view of a level that ignores the contents of nested
sub-hypergraphs (their slots keep only key and adjacency): mutations along
a path spine preserve this view of every level not below the mutation. -/
def levelView (lv : Hyp) :
    Option String × List (Nat × (String × List (Path × Direction))) ×
      List (Nat × (String × List (Path × Direction))) ×
      List (Nat × (Option String × Path × Path)) ×
      List (Nat × List (Path × Direction)) × Nat :=
  (lv.value, lv.nodes, lv.edges, lv.links, lv.hgs.map (fun e => (e.1, e.2.2)),
    lv.nextIdC)

/-! ### Concrete scenario states

Each `s..` definition below is the literal value of an intermediate state
of a build scenario.  The claim theorems assert, by `rfl`, that each build
step performed through the real operations produces exactly the next
literal (so every step's success, returned id and resulting state are all
part of the statement), and then evaluate the claim's observables on the
final state. -/

/-- Empty main hypergraph after `add_node("zero")` (path `[0]`). -/
def sB1 : Hyp := (Hyp.mk none [(0,("zero",[]))] [] [] [] 1 true)

/-- `sB1` after `add_node("one")` (path `[1]`). -/
def sB2 : Hyp := (Hyp.mk none [(0,("zero",[])),(1,("one",[]))] [] [] [] 2 true)

/-- `sB2` after `add_edge([0], [1], "two")` (edge `[2]`, anchors `[3]`, `[4]`): the spec base scenario. -/
def sB3 : Hyp := (Hyp.mk none [(0,("zero",[([3],Direction.Outgoing)])),(1,("one",[([4],Direction.Incoming)]))] [(2,("two",[([3],Direction.Incoming),([4],Direction.Outgoing)]))] [(3,(none,[0],[2])),(4,(none,[2],[1]))] [] 5 true)

/-- `sB3` after `remove([3])`. -/
def sB3r : Hyp := (Hyp.mk none [(0,("zero",[])),(1,("one",[]))] [] [] [] 5 true)

/-- `sB3` after a second `add_edge([0], [1], "three")` (edge `[5]`, anchors `[6]`, `[7]`). -/
def sTwoEdges : Hyp := (Hyp.mk none [(0,("zero",[([3],Direction.Outgoing),([6],Direction.Outgoing)])),(1,("one",[([4],Direction.Incoming),([7],Direction.Incoming)]))] [(2,("two",[([3],Direction.Incoming),([4],Direction.Outgoing)])),(5,("three",[([6],Direction.Incoming),([7],Direction.Outgoing)]))] [(3,(none,[0],[2])),(4,(none,[2],[1])),(6,(none,[0],[5])),(7,(none,[5],[1]))] [] 8 true)

/-- `sB3` after `add_link([0], [2], "x")` (link `[5]`). -/
def sBaseLink : Hyp := (Hyp.mk none [(0,("zero",[([3],Direction.Outgoing),([5],Direction.Outgoing)])),(1,("one",[([4],Direction.Incoming)]))] [(2,("two",[([3],Direction.Incoming),([4],Direction.Outgoing),([5],Direction.Incoming)]))] [(3,(none,[0],[2])),(4,(none,[2],[1])),(5,((some "x"),[0],[2]))] [] 6 true)

def sG1 : Hyp := (Hyp.mk none [] [] [] [(0,((Hyp.mk none [] [] [] [] 0 false),[]))] 1 true)

def sG2 : Hyp := (Hyp.mk none [] [] [] [(0,((Hyp.mk none [(0,("a",[]))] [] [] [] 1 false),[]))] 1 true)

def sG3 : Hyp := (Hyp.mk none [] [] [] [(0,((Hyp.mk none [(0,("a",[])),(1,("b",[]))] [] [] [] 2 false),[]))] 1 true)

def sG4 : Hyp := (Hyp.mk none [] [] [] [(0,((Hyp.mk none [(0,("a",[])),(1,("b",[])),(2,("c",[]))] [] [] [] 3 false),[]))] 1 true)

def sG5 : Hyp := (Hyp.mk none [] [] [] [(0,((Hyp.mk none [(0,("a",[])),(1,("b",[])),(2,("c",[]))] [] [] [] 3 false),[])),(1,((Hyp.mk none [] [] [] [] 0 false),[]))] 2 true)

def sG6 : Hyp := (Hyp.mk none [] [] [] [(0,((Hyp.mk none [(0,("a",[])),(2,("c",[]))] [] [] [] 3 false),[])),(1,((Hyp.mk none [] [] [] [] 0 false),[]))] 2 true)

def sP1 : Hyp := (Hyp.mk none [] [] [] [(0,((Hyp.mk (some "s") [] [] [] [] 0 false),[]))] 1 true)

def sP2 : Hyp := (Hyp.mk none [] [] [] [(0,((Hyp.mk (some "s") [(0,("a",[]))] [] [] [] 1 false),[]))] 1 true)

def sP3 : Hyp := (Hyp.mk none [] [] [] [(0,((Hyp.mk (some "s") [(0,("a",[])),(1,("b",[]))] [] [] [] 2 false),[]))] 1 true)

def sP4 : Hyp := (Hyp.mk none [] [] [] [(0,((Hyp.mk (some "s") [(0,("a",[([0,3],Direction.Outgoing)])),(1,("b",[([0,4],Direction.Incoming)]))] [(2,("e",[([0,3],Direction.Incoming),([0,4],Direction.Outgoing)]))] [(3,(none,[0,0],[0,2])),(4,(none,[0,2],[0,1]))] [] 5 false),[]))] 1 true)

/-- The state returned together with the error by `remove([0])` on `sP4`. -/
def sPerr : Hyp := (Hyp.mk none [] [] [] [(0,((Hyp.mk (some "s") [] [] [] [] 5 false),[]))] 1 true)

def sA1 : Hyp := (Hyp.mk none [] [] [] [(0,((Hyp.mk none [] [] [] [] 0 false),[]))] 1 true)

def sA2 : Hyp := (Hyp.mk none [] [] [] [(0,((Hyp.mk none [(0,("a",[]))] [] [] [] 1 false),[]))] 1 true)

def sA3 : Hyp := (Hyp.mk none [] [] [] [(0,((Hyp.mk none [(0,("a",[])),(1,("b",[]))] [] [] [] 2 false),[]))] 1 true)

def sA4 : Hyp := (Hyp.mk none [] [] [] [(0,((Hyp.mk none [(0,("a",[([0,3],Direction.Outgoing)])),(1,("b",[([0,4],Direction.Incoming)]))] [(2,("B",[([0,3],Direction.Incoming),([0,4],Direction.Outgoing)]))] [(3,(none,[0,0],[0,2])),(4,(none,[0,2],[0,1]))] [] 5 false),[]))] 1 true)

def sA5 : Hyp := (Hyp.mk none [] [] [] [(0,((Hyp.mk none [(0,("a",[([0,3],Direction.Outgoing),([0,5],Direction.Outgoing)])),(1,("b",[([0,4],Direction.Incoming)]))] [(2,("B",[([0,3],Direction.Incoming),([0,4],Direction.Outgoing),([0,5],Direction.Incoming)]))] [(3,(none,[0,0],[0,2])),(4,(none,[0,2],[0,1])),(5,(none,[0,0],[0,2]))] [] 6 false),[]))] 1 true)

def sA6 : Hyp := (Hyp.mk none [] [] [] [(0,((Hyp.mk none [(0,("a",[([0,3],Direction.Outgoing),([0,5],Direction.Outgoing),([0,7],Direction.Outgoing)])),(1,("b",[([0,4],Direction.Incoming),([0,8],Direction.Incoming)]))] [(2,("B",[([0,3],Direction.Incoming),([0,4],Direction.Outgoing),([0,5],Direction.Incoming)])),(6,("A",[([0,7],Direction.Incoming),([0,8],Direction.Outgoing)]))] [(3,(none,[0,0],[0,2])),(4,(none,[0,2],[0,1])),(5,(none,[0,0],[0,2])),(7,(none,[0,0],[0,6])),(8,(none,[0,6],[0,1]))] [] 9 false),[]))] 1 true)

def sA7 : Hyp := (Hyp.mk none [(1,("r1",[]))] [] [] [(0,((Hyp.mk none [(0,("a",[([0,3],Direction.Outgoing),([0,5],Direction.Outgoing),([0,7],Direction.Outgoing)])),(1,("b",[([0,4],Direction.Incoming),([0,8],Direction.Incoming)]))] [(2,("B",[([0,3],Direction.Incoming),([0,4],Direction.Outgoing),([0,5],Direction.Incoming)])),(6,("A",[([0,7],Direction.Incoming),([0,8],Direction.Outgoing)]))] [(3,(none,[0,0],[0,2])),(4,(none,[0,2],[0,1])),(5,(none,[0,0],[0,2])),(7,(none,[0,0],[0,6])),(8,(none,[0,6],[0,1]))] [] 9 false),[]))] 2 true)

def sA8 : Hyp := (Hyp.mk none [(1,("r1",[])),(2,("r2",[]))] [] [] [(0,((Hyp.mk none [(0,("a",[([0,3],Direction.Outgoing),([0,5],Direction.Outgoing),([0,7],Direction.Outgoing)])),(1,("b",[([0,4],Direction.Incoming),([0,8],Direction.Incoming)]))] [(2,("B",[([0,3],Direction.Incoming),([0,4],Direction.Outgoing),([0,5],Direction.Incoming)])),(6,("A",[([0,7],Direction.Incoming),([0,8],Direction.Outgoing)]))] [(3,(none,[0,0],[0,2])),(4,(none,[0,2],[0,1])),(5,(none,[0,0],[0,2])),(7,(none,[0,0],[0,6])),(8,(none,[0,6],[0,1]))] [] 9 false),[]))] 3 true)

def sA9 : Hyp := (Hyp.mk none [(1,("r1",[])),(2,("r2",[])),(3,("r3",[]))] [] [] [(0,((Hyp.mk none [(0,("a",[([0,3],Direction.Outgoing),([0,5],Direction.Outgoing),([0,7],Direction.Outgoing)])),(1,("b",[([0,4],Direction.Incoming),([0,8],Direction.Incoming)]))] [(2,("B",[([0,3],Direction.Incoming),([0,4],Direction.Outgoing),([0,5],Direction.Incoming)])),(6,("A",[([0,7],Direction.Incoming),([0,8],Direction.Outgoing)]))] [(3,(none,[0,0],[0,2])),(4,(none,[0,2],[0,1])),(5,(none,[0,0],[0,2])),(7,(none,[0,0],[0,6])),(8,(none,[0,6],[0,1]))] [] 9 false),[]))] 4 true)

def sA10 : Hyp := (Hyp.mk none [(1,("r1",[])),(2,("r2",[])),(3,("r3",[])),(4,("r4",[]))] [] [] [(0,((Hyp.mk none [(0,("a",[([0,3],Direction.Outgoing),([0,5],Direction.Outgoing),([0,7],Direction.Outgoing)])),(1,("b",[([0,4],Direction.Incoming),([0,8],Direction.Incoming)]))] [(2,("B",[([0,3],Direction.Incoming),([0,4],Direction.Outgoing),([0,5],Direction.Incoming)])),(6,("A",[([0,7],Direction.Incoming),([0,8],Direction.Outgoing)]))] [(3,(none,[0,0],[0,2])),(4,(none,[0,2],[0,1])),(5,(none,[0,0],[0,2])),(7,(none,[0,0],[0,6])),(8,(none,[0,6],[0,1]))] [] 9 false),[]))] 5 true)

def sA11 : Hyp := (Hyp.mk none [(1,("r1",[])),(2,("r2",[])),(3,("r3",[])),(4,("r4",[]))] [] [(5,(none,[0,0],[0,6]))] [(0,((Hyp.mk none [(0,("a",[([0,3],Direction.Outgoing),([0,5],Direction.Outgoing),([0,7],Direction.Outgoing),([5],Direction.Outgoing)])),(1,("b",[([0,4],Direction.Incoming),([0,8],Direction.Incoming)]))] [(2,("B",[([0,3],Direction.Incoming),([0,4],Direction.Outgoing),([0,5],Direction.Incoming)])),(6,("A",[([0,7],Direction.Incoming),([0,8],Direction.Outgoing),([5],Direction.Incoming)]))] [(3,(none,[0,0],[0,2])),(4,(none,[0,2],[0,1])),(5,(none,[0,0],[0,2])),(7,(none,[0,0],[0,6])),(8,(none,[0,6],[0,1]))] [] 9 false),[]))] 6 true)

def sA12 : Hyp := (Hyp.mk none [(1,("r1",[])),(2,("r2",[])),(3,("r3",[])),(4,("r4",[]))] [] [(5,(none,[0,0],[0,6]))] [(0,((Hyp.mk none [(0,("a",[([0,3],Direction.Outgoing),([0,5],Direction.Outgoing),([5],Direction.Outgoing)])),(1,("b",[([0,4],Direction.Incoming),([0,8],Direction.Incoming)]))] [(2,("B",[([0,3],Direction.Incoming),([0,4],Direction.Outgoing),([0,5],Direction.Incoming)])),(6,("A",[([0,8],Direction.Outgoing),([5],Direction.Incoming)]))] [(3,(none,[0,0],[0,2])),(4,(none,[0,2],[0,1])),(5,(none,[0,0],[0,2])),(8,(none,[0,6],[0,1]))] [] 9 false),[]))] 6 true)

def sA13 : Hyp := (Hyp.mk none [(1,("r1",[])),(2,("r2",[])),(3,("r3",[])),(4,("r4",[]))] [] [(5,(none,[0,0],[0,6]))] [(0,((Hyp.mk none [(0,("a",[([0,3],Direction.Outgoing),([0,5],Direction.Outgoing)])),(1,("b",[([0,4],Direction.Incoming)]))] [(2,("B",[([0,3],Direction.Incoming),([0,4],Direction.Outgoing),([0,5],Direction.Incoming)]))] [(3,(none,[0,0],[0,2])),(4,(none,[0,2],[0,1]))] [] 9 false),[]))] 6 true)

/-! ### Claim theorems: concrete scenarios -/

/-- C1.  Adjacency symmetry is **not** an invariant of the successful add
and remove operations.  The conjuncts replay a scenario in which every
operation succeeds (each step equation names the exact result and state),
ending with `remove([0,7])` and `remove([0,6])`; in the final state the
link `[5]` is still stored with source `[0,0]` and target `[0,6]`, yet
`[0,0]`'s adjacency list is `[([0,3], Outgoing), ([0,5], Outgoing)]` — no
`([5], Outgoing)` entry, and `[0,5]` is listed although that link no
longer exists.  The slip: the second phase of `remove_edge` removes the
leftover links' slots from the **edge's own level**
(`self.hypergraph_of_mut(id)`), deleting `[0,5]` instead of `[5]` when a
leftover adjacency entry lives at a different level. -/
theorem c1_adjacency_symmetry_code_bug :
    addElementIn Hyp.newMain (.Hypergraph none) [] = some (.ok [0], sA1) ∧
    addElementIn sA1 (.Node "a") [0] = some (.ok [0, 0], sA2) ∧
    addElementIn sA2 (.Node "b") [0] = some (.ok [0, 1], sA3) ∧
    addElementIn sA3 (.Edge [0, 0] [0, 1] "B") [0] = some (.ok [0, 2], sA4) ∧
    addElementIn sA4 (.Link [0, 0] [0, 2] none) [0] = some (.ok [0, 5], sA5) ∧
    addElementIn sA5 (.Edge [0, 0] [0, 1] "A") [0] = some (.ok [0, 6], sA6) ∧
    addElementIn sA6 (.Node "r1") [] = some (.ok [1], sA7) ∧
    addElementIn sA7 (.Node "r2") [] = some (.ok [2], sA8) ∧
    addElementIn sA8 (.Node "r3") [] = some (.ok [3], sA9) ∧
    addElementIn sA9 (.Node "r4") [] = some (.ok [4], sA10) ∧
    addElementIn sA10 (.Link [0, 0] [0, 6] none) [] = some (.ok [5], sA11) ∧
    removeF 80 sA11 [0, 7] = some (.ok (.Link none), sA12) ∧
    removeF 80 sA12 [0, 6] = some (.ok (.Edge "A"), sA13) ∧
    containsLink sA13 [5] = true ∧
    linkEndpointsE sA13 [5] = .ok ([0, 0], [0, 6]) ∧
    linksOfE sA13 [0, 0] = .ok [([0, 3], .Outgoing), ([0, 5], .Outgoing)] ∧
    containsLink sA13 [0, 5] = false :=
  ⟨rfl, rfl, rfl, rfl, rfl, rfl, rfl, rfl, rfl, rfl, rfl, rfl, rfl, rfl, rfl,
    rfl, rfl⟩

/-- C2.  Adding a hyperedge allocates three consecutive local ids (edge,
then the two anchor links) at the given location: from the empty
hypergraph, `add_node("zero")` returns `[0]`, `add_node("one")` returns
`[1]`, `add_edge([0],[1],"two")` returns `[2]`, and `find_link_id` locates
the source-to-edge anchor at `[3]` and the edge-to-target anchor at
`[4]`. -/
theorem c2_add_edge_scenario :
    addElementIn Hyp.newMain (.Node "zero") [] = some (.ok [0], sB1) ∧
    addElementIn sB1 (.Node "one") [] = some (.ok [1], sB2) ∧
    addElementIn sB2 (.Edge [0] [1] "two") [] = some (.ok [2], sB3) ∧
    findLinkIdF sB3 [0] [2] none [] = .ok [3] ∧
    findLinkIdF sB3 [2] [1] none [] = .ok [4] :=
  ⟨rfl, rfl, rfl, rfl, rfl⟩

/-- C3.  Removing one anchor link of a hyperedge cascades to the hyperedge
itself: in the base scenario, `remove([3])` succeeds and afterwards none of
`[2]`, `[3]`, `[4]` exist, while nodes `[0]` and `[1]` still do. -/
theorem c3_anchor_removal_cascades :
    removeF 80 sB3 [3] = some (.ok (.Link none), sB3r) ∧
    contains sB3r [2] = false ∧
    contains sB3r [3] = false ∧
    contains sB3r [4] = false ∧
    contains sB3r [0] = true ∧
    contains sB3r [1] = true :=
  ⟨rfl, rfl, rfl, rfl, rfl, rfl⟩

/-- C4.  `ids()` does **not** always yield every currently-valid path: in
the state `sG6` (nested hypergraph `[0]` with a removal gap at `[0,1]`,
followed by a later, empty nested hypergraph `[1]`), the path `[0,2]` is
valid and lies strictly between `[0,0]` and `[1]` in lexicographic order,
yet the enumeration is `[[], [0], [0,0], [1]]` — `next_id([0,1])` jumps
straight to `[1]` because the per-level bound it consults
(`bound[id.len()-1]`) comes from the **last** nested hypergraph in the
map, not from the hypergraph being scanned. -/
theorem c4_ids_skips_valid_path :
    addElementIn Hyp.newMain (.Hypergraph none) [] = some (.ok [0], sG1) ∧
    addElementIn sG1 (.Node "a") [0] = some (.ok [0, 0], sG2) ∧
    addElementIn sG2 (.Node "b") [0] = some (.ok [0, 1], sG3) ∧
    addElementIn sG3 (.Node "c") [0] = some (.ok [0, 2], sG4) ∧
    addElementIn sG4 (.Hypergraph none) [] = some (.ok [1], sG5) ∧
    removeF 80 sG5 [0, 1] = some (.ok (.Node "b"), sG6) ∧
    contains sG6 [0, 2] = true ∧
    elementValueE sG6 [0, 2] = .ok (.Node "c") ∧
    pathLt [0, 0] [0, 2] = true ∧
    pathLt [0, 2] [1] = true ∧
    idsListF 200 sG6 = some [[], [0], [0, 0], [1]] ∧
    nextIdF 200 sG6 [0, 1] = some (some [1]) :=
  ⟨rfl, rfl, rfl, rfl, rfl, rfl, rfl, rfl, rfl, rfl, rfl, rfl⟩

/-- C5 (counterexample).  A failing `remove` is **not** atomic: on `sP4`
(a nested hypergraph `[0]` holding two nodes and a hyperedge),
`remove([0])` returns `Err(NoElement([0,2]))` — its interior snapshot
still lists the hyperedge `[0,2]` that the earlier removal of `[0,0]`
already cascaded away — yet the state it leaves behind has already lost
node `[0,0]`, while the sub-hypergraph `[0]` itself is still present. -/
theorem c5_failed_remove_mutates :
    addElementIn Hyp.newMain (.Hypergraph (some "s")) [] = some (.ok [0], sP1) ∧
    addElementIn sP1 (.Node "a") [0] = some (.ok [0, 0], sP2) ∧
    addElementIn sP2 (.Node "b") [0] = some (.ok [0, 1], sP3) ∧
    addElementIn sP3 (.Edge [0, 0] [0, 1] "e") [0] = some (.ok [0, 2], sP4) ∧
    removeF 80 sP4 [0] = some (.error (.NoElement [0, 2]), sPerr) ∧
    contains sP4 [0, 0] = true ∧
    contains sPerr [0, 0] = false ∧
    contains sPerr [0] = true :=
  ⟨rfl, rfl, rfl, rfl, rfl, rfl, rfl, rfl⟩

/-- C6 (counterexample).  `add_edge` between two existing hyperedges at a
coherent location **does** fail with `Unlinkable`: with hyperedges at
`[2]` and `[5]` and location `[]` (a prefix of both), the per-endpoint
check of `add_element_in` rejects an edge whose source is an edge before
the pairwise link-only checks are ever reached. -/
theorem c6_edge_between_hyperedges_fails :
    addElementIn sB3 (.Edge [0] [1] "three") [] = some (.ok [5], sTwoEdges) ∧
    containsEdge sTwoEdges [2] = true ∧
    containsEdge sTwoEdges [5] = true ∧
    containsOrEquals [] [2] = true ∧
    containsOrEquals [] [5] = true ∧
    addElementIn sTwoEdges (.Edge [2] [5] "v") [] =
      some (.error (.Unlinkable [2] [5]), sTwoEdges) :=
  ⟨rfl, rfl, rfl, rfl, rfl, rfl⟩

/-- C7.  When the source resolves to a linkable element but the non-empty
target does not resolve, `add_element_in` reports
`AddError::NoSource(NoElementLinkable(target))` — not the `NoTarget`
variant the spec names (the code's target-lookup error arm reuses the
`NoSource` constructor, and `NoTarget` is never constructed anywhere). -/
theorem c7_missing_target_reports_nosource :
    containsLinkable sB3 [0] = true ∧
    contains sB3 [9] = false ∧
    addElementIn sB3 (.Link [0] [9] none) [] =
      some (.error (.NoSource [9]), sB3) :=
  ⟨rfl, rfl, rfl⟩

/-! ### Claim theorems: general statements -/

/-- C5 (amended).  Failed **add** mutations are atomic: whenever
`add_element_in` returns an error, the state it returns is exactly the
state it was given — validation is fully separated from mutation, every
error arm returning before anything is written.  (Failing removes are not
atomic; see the counterexample.) -/
theorem c5_failed_add_atomic (h : Hyp) (e : ElementExt) (loc : Path)
    (err : AddErr) (h' : Hyp)
    (H : addElementIn h e loc = some (.error err, h')) : h' = h := by
  have inj : ∀ x : AddErr,
      some ((Except.error x : Except AddErr Path), h) = some (.error err, h') →
        h' = h := by
    intro x Hx
    simp only [Option.some.injEq, Prod.mk.injEq] at Hx
    exact Hx.2.symm
  cases e with
  | Node v =>
    unfold addElementIn at H
    simp only [ElementExt.isNode, ElementExt.isHypergraph, Bool.true_or,
      Bool.or_true, Bool.or_false, Bool.false_or] at H
    cases hcl : containsHypergraph h loc <;>
      simp only [hcl, Bool.not_true, Bool.not_false] at H
    · exact inj _ H
    · cases hu : addElementInUnchecked h (.Node v) loc <;> simp [hu] at H
  | Hypergraph v =>
    unfold addElementIn at H
    simp only [ElementExt.isNode, ElementExt.isHypergraph, Bool.true_or,
      Bool.or_true, Bool.or_false, Bool.false_or] at H
    cases hcl : containsHypergraph h loc <;>
      simp only [hcl, Bool.not_true, Bool.not_false] at H
    · exact inj _ H
    · cases hu : addElementInUnchecked h (.Hypergraph v) loc <;> simp [hu] at H
  | Edge s t v =>
    unfold addElementIn at H
    simp only [ElementExt.isNode, ElementExt.isHypergraph, ElementExt.isEdge,
      ElementExt.isLink, ElementExt.source, ElementExt.target, Bool.or_self,
      Bool.false_or, Bool.or_false, Bool.and_true, Bool.true_and,
      Bool.and_false, Bool.false_and] at H
    cases hcl : containsHypergraph h loc <;>
      simp only [hcl, Bool.not_true, Bool.not_false] at H
    · exact inj _ H
    · cases hse : s.isEmpty <;> simp only [hse] at H
      · cases hev : elementValueE h s with
        | error ge => simp only [hev] at H; exact inj _ H
        | ok sv =>
          simp only [hev] at H
          cases hsl : sv.isLink <;> simp only [hsl] at H
          · cases hsE : sv.isEdge <;> simp only [hsE] at H
            · cases hte : t.isEmpty <;> simp only [hte] at H
              · cases htv : elementValueE h t with
                | error ge2 => simp only [htv] at H; exact inj _ H
                | ok tv =>
                  simp only [htv] at H
                  cases htl : tv.isLink <;> simp only [htl] at H
                  · cases htE : tv.isEdge <;> simp only [htE] at H
                    · cases hco : (containsOrEquals loc s && containsOrEquals loc t) <;>
                        simp only [hco, Bool.not_true, Bool.not_false] at H
                      · exact inj _ H
                      · cases hu : addElementInUnchecked h (.Edge s t v) loc <;>
                          simp [hu] at H
                    · exact inj _ H
                  · exact inj _ H
              · exact inj _ H
            · exact inj _ H
          · exact inj _ H
      · exact inj _ H
  | Link s t v =>
    unfold addElementIn at H
    simp only [ElementExt.isNode, ElementExt.isHypergraph, ElementExt.isEdge,
      ElementExt.isLink, ElementExt.source, ElementExt.target, Bool.or_self,
      Bool.false_or, Bool.or_false, Bool.and_true, Bool.true_and,
      Bool.and_false, Bool.false_and] at H
    cases hcl : containsHypergraph h loc <;>
      simp only [hcl, Bool.not_true, Bool.not_false] at H
    · exact inj _ H
    · cases hse : s.isEmpty <;> simp only [hse] at H
      · cases hev : elementValueE h s with
        | error ge => simp only [hev] at H; exact inj _ H
        | ok sv =>
          simp only [hev] at H
          cases hsl : sv.isLink <;> simp only [hsl] at H
          · cases hte : t.isEmpty <;> simp only [hte] at H
            · cases htv : elementValueE h t with
              | error ge2 => simp only [htv] at H; exact inj _ H
              | ok tv =>
                simp only [htv] at H
                cases htl : tv.isLink <;> simp only [htl] at H
                · cases hst : (sv.isEdge && tv.isEdge) <;> simp only [hst] at H
                  · cases hnn : ((sv.isNode || sv.isHypergraph) &&
                        (tv.isNode || tv.isHypergraph)) <;> simp only [hnn] at H
                    · cases hco : (containsOrEquals loc s && containsOrEquals loc t) <;>
                        simp only [hco, Bool.not_true, Bool.not_false] at H
                      · exact inj _ H
                      · cases hu : addElementInUnchecked h (.Link s t v) loc <;>
                          simp [hu] at H
                    · exact inj _ H
                  · exact inj _ H
                · exact inj _ H
            · exact inj _ H
          · exact inj _ H
      · exact inj _ H

/-- C5 (amended), witness: a concrete failing add (unknown location `[3]`
in the base scenario) returns its error without touching the state. -/
theorem c5_failed_add_atomic_witness :
    addElementIn sB3 (.Node "w") [3] = some (.error (.NoLocation [3]), sB3) ∧
    sB3 = sB3 :=
  ⟨rfl, c5_failed_add_atomic sB3 (.Node "w") [3] (.NoLocation [3]) sB3 rfl⟩

/-- C6 (amended).  An edge-add whose source resolves to an existing
hyperedge always fails with `Unlinkable(source, target)`, whatever the
target: the exemption from the *pairwise* endpoint checks (which fire only
for link-adds) does not exempt an edge-add from the per-endpoint check
that rejects an edge endpoint. -/
theorem c6_edge_source_hyperedge_unlinkable (h : Hyp) (s t : Path)
    (v : String) (loc : Path) (ev : String)
    (hLoc : containsHypergraph h loc = true)
    (hSrc : elementValueE h s = .ok (.Edge ev)) :
    addElementIn h (.Edge s t v) loc = some (.error (.Unlinkable s t), h) := by
  have hs : s.isEmpty = false := by
    cases s with
    | nil => simp [elementValueE] at hSrc
    | cons a l => rfl
  unfold addElementIn
  rw [hLoc]
  simp only [ElementExt.isNode, ElementExt.isHypergraph, ElementExt.isEdge,
    ElementExt.source, ElementExt.target, Bool.or_self, Bool.not_true,
    Bool.false_or, Bool.or_false]
  rw [hs, hSrc]
  rfl

/-- C6 (amended), witness: applying the general statement to the two
concrete hyperedges `[2]` and `[5]` of `sTwoEdges`. -/
theorem c6_edge_source_hyperedge_unlinkable_witness :
    containsHypergraph sTwoEdges [] = true ∧
    elementValueE sTwoEdges [2] = .ok (.Edge "two") ∧
    addElementIn sTwoEdges (.Edge [2] [5] "v") [] =
      some (.error (.Unlinkable [2] [5]), sTwoEdges) :=
  ⟨rfl, rfl,
    c6_edge_source_hyperedge_unlinkable sTwoEdges [2] [5] "v" [] "two" rfl rfl⟩

/-- C9.  Bulk clearing does not reset the id counter: `clear()` empties the
four top-level mappings but leaves `next_id` (and the payload value)
unchanged, and `add_local_element` always assigns exactly the current
`next_id` and increments it — so every element added after a `clear()`
receives a local id at least `next_id`, strictly greater than every id the
counter ever handed out before. -/
theorem c9_clear_preserves_next_id (h : Hyp) (e : Element) :
    (clearF h).nextIdC = h.nextIdC ∧
    (clearF h).value = h.value ∧
    (clearF h).nodes = [] ∧
    (clearF h).edges = [] ∧
    (clearF h).links = [] ∧
    (clearF h).hgs = [] ∧
    (addLocalElement (clearF h) e).2 = h.nextIdC ∧
    ((addLocalElement (clearF h) e).1).nextIdC = h.nextIdC + 1 := by
  cases h with
  | mk v nd ed l g n c =>
    cases e <;>
      simp [clearF, addLocalElement, Hyp.withEdges, Hyp.withHgs, Hyp.withLinks,
        Hyp.withNodes, Hyp.withNextId, Hyp.nextIdC, Hyp.value, Hyp.nodes,
        Hyp.edges, Hyp.links, Hyp.hgs]

/-- C10.  The role-marker accessors agree instead of being complementary:
`is_sub()` evaluates `class().is_main()`, so `is_sub()` and `is_main()`
always return the same boolean — on a root `Main` hypergraph `is_sub()` is
`true`, and on a nested `Sub` hypergraph `is_sub()` is `false`, the exact
opposite of `HypergraphClass::is_sub` on the marker itself. -/
theorem c10_is_sub_agrees_with_is_main (h : Hyp) :
    isSubF h = classIsMain h.classIsMainT ∧
    isSubF h = isMainF h ∧
    isSubF h ≠ classIsSub h.classIsMainT ∧
    isSubF Hyp.newMain = true ∧
    isSubF (Hyp.newSub none) = false := by
  refine ⟨rfl, rfl, ?_, rfl, rfl⟩
  cases hb : h.classIsMainT <;> simp [isSubF, classIsMain, classIsSub, hb]

/-! ### Helper lemmas: field accessors -/

@[simp] theorem withNodes_nodes (h : Hyp) (x) : (h.withNodes x).nodes = x := by
  cases h; rfl

@[simp] theorem withNodes_edges (h : Hyp) (x) : (h.withNodes x).edges = h.edges := by
  cases h; rfl

@[simp] theorem withNodes_links (h : Hyp) (x) : (h.withNodes x).links = h.links := by
  cases h; rfl

@[simp] theorem withNodes_hgs (h : Hyp) (x) : (h.withNodes x).hgs = h.hgs := by
  cases h; rfl

@[simp] theorem withNodes_value (h : Hyp) (x) : (h.withNodes x).value = h.value := by
  cases h; rfl

@[simp] theorem withNodes_nextIdC (h : Hyp) (x) : (h.withNodes x).nextIdC = h.nextIdC := by
  cases h; rfl

@[simp] theorem withEdges_nodes (h : Hyp) (x) : (h.withEdges x).nodes = h.nodes := by
  cases h; rfl

@[simp] theorem withEdges_edges (h : Hyp) (x) : (h.withEdges x).edges = x := by
  cases h; rfl

@[simp] theorem withEdges_links (h : Hyp) (x) : (h.withEdges x).links = h.links := by
  cases h; rfl

@[simp] theorem withEdges_hgs (h : Hyp) (x) : (h.withEdges x).hgs = h.hgs := by
  cases h; rfl

@[simp] theorem withEdges_value (h : Hyp) (x) : (h.withEdges x).value = h.value := by
  cases h; rfl

@[simp] theorem withEdges_nextIdC (h : Hyp) (x) : (h.withEdges x).nextIdC = h.nextIdC := by
  cases h; rfl

@[simp] theorem withLinks_nodes (h : Hyp) (x) : (h.withLinks x).nodes = h.nodes := by
  cases h; rfl

@[simp] theorem withLinks_edges (h : Hyp) (x) : (h.withLinks x).edges = h.edges := by
  cases h; rfl

@[simp] theorem withLinks_links (h : Hyp) (x) : (h.withLinks x).links = x := by
  cases h; rfl

@[simp] theorem withLinks_hgs (h : Hyp) (x) : (h.withLinks x).hgs = h.hgs := by
  cases h; rfl

@[simp] theorem withLinks_value (h : Hyp) (x) : (h.withLinks x).value = h.value := by
  cases h; rfl

@[simp] theorem withLinks_nextIdC (h : Hyp) (x) : (h.withLinks x).nextIdC = h.nextIdC := by
  cases h; rfl

@[simp] theorem withHgs_nodes (h : Hyp) (x) : (h.withHgs x).nodes = h.nodes := by
  cases h; rfl

@[simp] theorem withHgs_edges (h : Hyp) (x) : (h.withHgs x).edges = h.edges := by
  cases h; rfl

@[simp] theorem withHgs_links (h : Hyp) (x) : (h.withHgs x).links = h.links := by
  cases h; rfl

@[simp] theorem withHgs_hgs (h : Hyp) (x) : (h.withHgs x).hgs = x := by
  cases h; rfl

@[simp] theorem withHgs_value (h : Hyp) (x) : (h.withHgs x).value = h.value := by
  cases h; rfl

@[simp] theorem withHgs_nextIdC (h : Hyp) (x) : (h.withHgs x).nextIdC = h.nextIdC := by
  cases h; rfl

@[simp] theorem withNextId_nodes (h : Hyp) (x) : (h.withNextId x).nodes = h.nodes := by
  cases h; rfl

@[simp] theorem withNextId_edges (h : Hyp) (x) : (h.withNextId x).edges = h.edges := by
  cases h; rfl

@[simp] theorem withNextId_links (h : Hyp) (x) : (h.withNextId x).links = h.links := by
  cases h; rfl

@[simp] theorem withNextId_hgs (h : Hyp) (x) : (h.withNextId x).hgs = h.hgs := by
  cases h; rfl

@[simp] theorem withNextId_value (h : Hyp) (x) : (h.withNextId x).value = h.value := by
  cases h; rfl

@[simp] theorem withNextId_nextIdC (h : Hyp) (x) : (h.withNextId x).nextIdC = x := by
  cases h; rfl

/-! ### Helper lemmas: the IndexMap model -/

theorem imGet_cons {α : Type} (a : Nat) (x : α) (es : List (Nat × α)) (k : Nat) :
    imGet ((a, x) :: es) k = if a = k then some x else imGet es k := by
  by_cases hak : a = k <;> simp [imGet, List.find?_cons, hak]

@[simp] theorem imGet_nil {α : Type} (k : Nat) : imGet ([] : List (Nat × α)) k = none :=
  rfl

theorem imContainsKey_eq_isSome {α : Type} (m : List (Nat × α)) (k : Nat) :
    imContainsKey m k = (imGet m k).isSome := by
  induction m with
  | nil => rfl
  | cons e es ih =>
    cases e with
    | mk a x =>
      by_cases hak : a = k <;> simp [imContainsKey, imGet_cons, hak] <;>
        simpa [imContainsKey] using ih

theorem imGet_imReplaceFirst_self {α : Type} (m : List (Nat × α)) (k : Nat) (v : α)
    (hc : imContainsKey m k = true) :
    imGet (imReplaceFirst m k v) k = some v := by
  induction m with
  | nil => simp [imContainsKey] at hc
  | cons e es ih =>
    cases e with
    | mk a x =>
      by_cases hak : a = k
      · subst hak; simp [imReplaceFirst, imGet_cons]
      · simp only [imReplaceFirst, if_neg hak]
        rw [imGet_cons, if_neg hak]
        exact ih (by simpa [imContainsKey, hak] using hc)

theorem imGet_imReplaceFirst_ne {α : Type} (m : List (Nat × α)) (k k' : Nat) (v : α)
    (hne : k' ≠ k) :
    imGet (imReplaceFirst m k v) k' = imGet m k' := by
  induction m with
  | nil => rfl
  | cons e es ih =>
    cases e with
    | mk a x =>
      by_cases hak : a = k
      · subst hak
        have hkk : ¬ a = k' := fun hh => hne (hh.symm)
        simp [imReplaceFirst, imGet_cons, hkk]
      · simp [imReplaceFirst, hak, imGet_cons, ih]

theorem imGet_append_single_self {α : Type} (m : List (Nat × α)) (k : Nat) (v : α)
    (hc : imContainsKey m k = false) :
    imGet (m ++ [(k, v)]) k = some v := by
  induction m with
  | nil => simp [imGet_cons]
  | cons e es ih =>
    cases e with
    | mk a x =>
      have hak : ¬ a = k := by
        intro hh
        rw [imContainsKey, List.any_cons] at hc
        simp [hh] at hc
      have hes : imContainsKey es k = false := by
        rw [imContainsKey, List.any_cons] at hc
        simp only [Bool.or_eq_false_iff] at hc
        exact hc.2
      rw [List.cons_append, imGet_cons, if_neg hak]
      exact ih hes

theorem imGet_append_single_ne {α : Type} (m : List (Nat × α)) (k k' : Nat) (v : α)
    (hne : k' ≠ k) :
    imGet (m ++ [(k, v)]) k' = imGet m k' := by
  induction m with
  | nil =>
    have hkk : ¬ k = k' := fun hh => hne (hh.symm)
    simp [imGet_cons, hkk]
  | cons e es ih =>
    cases e with
    | mk a x =>
      rw [List.cons_append, imGet_cons, imGet_cons, ih]

theorem imGet_imInsert_self {α : Type} (m : List (Nat × α)) (k : Nat) (v : α) :
    imGet (imInsert m k v) k = some v := by
  unfold imInsert
  cases hc : imContainsKey m k
  · rw [if_neg (by simp [hc])]
    exact imGet_append_single_self m k v hc
  · rw [if_pos rfl]
    exact imGet_imReplaceFirst_self m k v hc

theorem imGet_imInsert_ne {α : Type} (m : List (Nat × α)) (k k' : Nat) (v : α)
    (hne : k' ≠ k) :
    imGet (imInsert m k v) k' = imGet m k' := by
  unfold imInsert
  cases hc : imContainsKey m k
  · rw [if_neg (by simp [hc])]
    exact imGet_append_single_ne m k k' v hne
  · rw [if_pos rfl]
    exact imGet_imReplaceFirst_ne m k k' v hne

theorem imGet_imModify_self {α : Type} (m : List (Nat × α)) (k : Nat) (f : α → α) :
    imGet (imModify m k f) k = (imGet m k).map f := by
  induction m with
  | nil => rfl
  | cons e es ih =>
    cases e with
    | mk a x =>
      by_cases hak : a = k
      · subst hak
        simp [imModify, imGet_cons]
      · simp [imModify, hak, imGet_cons, ih]

theorem imGet_imModify_ne {α : Type} (m : List (Nat × α)) (k k' : Nat) (f : α → α)
    (hne : k' ≠ k) :
    imGet (imModify m k f) k' = imGet m k' := by
  induction m with
  | nil => rfl
  | cons e es ih =>
    cases e with
    | mk a x =>
      by_cases hak : a = k
      · subst hak
        have hkk : ¬ a = k' := fun hh => hne (hh.symm)
        simp [imModify, imGet_cons, hkk]
      · simp [imModify, hak, imGet_cons, ih]

theorem imInsert_map_keyAdj {β γ : Type} (m : List (Nat × (β × γ))) (k : Nat)
    (b b' : β) (c : γ) (hg : imGet m k = some (b, c)) :
    (imInsert m k (b', c)).map (fun e => (e.1, e.2.2)) =
      m.map (fun e => (e.1, e.2.2)) := by
  have hc : imContainsKey m k = true := by
    rw [imContainsKey_eq_isSome, hg]; rfl
  unfold imInsert
  rw [if_pos hc]
  clear hc
  induction m with
  | nil => simp [imGet] at hg
  | cons e es ih =>
    cases e with
    | mk a x =>
      by_cases hak : a = k
      · subst hak
        rw [imGet_cons, if_pos rfl] at hg
        cases hg
        simp [imReplaceFirst]
      · rw [imGet_cons, if_neg hak] at hg
        simp [imReplaceFirst, if_neg hak, ih hg]

/-! ### Helper lemmas: paths -/

theorem containsOrEquals_iff (q p : Path) :
    containsOrEquals q p = true ↔ ∃ r, p = q ++ r := by
  induction q generalizing p with
  | nil => simp [containsOrEquals]
  | cons a q' ih =>
    cases p with
    | nil =>
      simp [containsOrEquals]
    | cons b p' =>
      constructor
      · intro hco
        unfold containsOrEquals at hco
        simp only [List.length_cons, Nat.add_le_add_iff_right, List.take_succ_cons,
          List.cons.injEq] at hco
        split at hco
        · rename_i hlen
          simp only [decide_eq_true_eq, List.cons.injEq] at hco
          obtain ⟨hab, hq⟩ := hco
          subst hab
          obtain ⟨r, hr⟩ :=
            (ih p').mp
              (by unfold containsOrEquals; rw [if_pos hlen]; exact decide_eq_true hq)
          exact ⟨r, by rw [List.cons_append, ← hr]⟩
        · cases hco
      · rintro ⟨r, hr⟩
        rw [hr]
        unfold containsOrEquals
        rw [if_pos (by simp)]
        simp

theorem containsOrEquals_false_of_cons (a : Nat) (q' p' : Path)
    (hco : containsOrEquals (a :: q') (a :: p') = false) :
    containsOrEquals q' p' = false := by
  by_contra hne
  have hq : containsOrEquals q' p' = true := by
    cases hqv : containsOrEquals q' p'
    · exact absurd hqv hne
    · rfl
  obtain ⟨r, hr⟩ := (containsOrEquals_iff q' p').mp hq
  have : containsOrEquals (a :: q') (a :: p') = true :=
    (containsOrEquals_iff _ _).mpr ⟨r, by simp [hr]⟩
  rw [this] at hco
  cases hco

/-! ### Helper lemmas: navigation -/

theorem descend_append (q r : Path) (h : Hyp) :
    descend h (q ++ r) = (descend h q).bind (fun lv => descend lv r) := by
  induction q generalizing h with
  | nil => simp [descend]
  | cons a q' ih =>
    simp only [List.cons_append, descend]
    cases imGet h.hgs a with
    | none => rfl
    | some e => exact ih e.1

theorem modifyAt_eq_extractAt (q : Path) (h : Hyp) (f : Hyp → Hyp) :
    modifyAt h q f =
      (extractAt h q (fun lv => some (PUnit.unit, f lv))).map (·.2) := by
  induction q generalizing h with
  | nil => rfl
  | cons a q' ih =>
    cases hg : imGet h.hgs a with
    | none => simp [modifyAt, extractAt, hg]
    | some e =>
      cases e with
      | mk sub adj =>
        simp only [modifyAt, extractAt, hg, ih sub]
        cases extractAt sub q' (fun lv => some (PUnit.unit, f lv)) with
        | none => rfl
        | some r => rfl

/-- The central write/read lemma: a successful `extractAt` at level `q`
found a level `lv`, rewrote it to `lv₁`, and left every level not below
`q` with an unchanged `levelView` (nested contents below `q` are exactly
`lv₁`'s). -/
theorem extractAt_spec {β : Type} (q : Path) (h : Hyp) (f : Hyp → Option (β × Hyp))
    (b : β) (h₁ : Hyp) (hX : extractAt h q f = some (b, h₁)) :
    ∃ lv lv₁, descend h q = some lv ∧ f lv = some (b, lv₁) ∧
      (∀ r, descend h₁ (q ++ r) = if r.isEmpty then some lv₁ else descend lv₁ r) ∧
      (∀ p, containsOrEquals q p = false →
        (descend h₁ p).map levelView = (descend h p).map levelView) := by
  induction q generalizing h h₁ with
  | nil =>
    refine ⟨h, h₁, rfl, hX, ?_, ?_⟩
    · intro r
      cases r with
      | nil => simp [descend]
      | cons a r' => simp
    · intro p hp
      have hT : containsOrEquals [] p = true := (containsOrEquals_iff [] p).mpr ⟨p, rfl⟩
      rw [hT] at hp
      cases hp
  | cons a q' ih =>
    cases hg : imGet h.hgs a with
    | none =>
      simp only [extractAt, hg] at hX
      exact Option.noConfusion hX
    | some e =>
      cases e with
      | mk sub adj =>
        simp only [extractAt, hg] at hX
        rw [Option.map_eq_some'] at hX
        obtain ⟨r0, hX1, hX2⟩ := hX
        cases r0 with
        | mk b0 sub₁ =>
          rw [Prod.mk.injEq] at hX2
          obtain ⟨hb, hh₁⟩ := hX2
          subst hb
          subst hh₁
          obtain ⟨lv, lv₁, hdes, hf, hr, hp⟩ := ih sub sub₁ hX1
          refine ⟨lv, lv₁, ?_, hf, ?_, ?_⟩
          · simp only [descend, hg]
            exact hdes
          · intro r
            simp only [List.cons_append, descend, withHgs_hgs, imGet_imInsert_self]
            exact hr r
          · intro p hp0
            cases p with
            | nil =>
              simp only [descend, Option.map_some']
              have hv : levelView (h.withHgs (imInsert h.hgs a (sub₁, adj))) =
                  levelView h := by
                simp only [levelView, withHgs_nodes, withHgs_edges, withHgs_links,
                  withHgs_value, withHgs_nextIdC, withHgs_hgs]
                rw [imInsert_map_keyAdj h.hgs a sub sub₁ adj hg]
              rw [hv]
            | cons a' p' =>
              by_cases haa : a' = a
              · subst haa
                simp only [descend, withHgs_hgs, imGet_imInsert_self, hg]
                exact hp p' (containsOrEquals_false_of_cons a' q' p' hp0)
              · simp only [descend, withHgs_hgs, imGet_imInsert_ne h.hgs a a' _ haa, hg]

theorem imGet_map_keyAdj {β γ : Type} (m₁ m : List (Nat × (β × γ)))
    (hm : m₁.map (fun e => (e.1, e.2.2)) = m.map (fun e => (e.1, e.2.2))) (k : Nat) :
    (imGet m₁ k).map (·.2) = (imGet m k).map (·.2) := by
  induction m₁ generalizing m with
  | nil =>
    cases m with
    | nil => rfl
    | cons e es => simp at hm
  | cons e₁ es₁ ih =>
    cases m with
    | nil => simp at hm
    | cons e es =>
      simp only [List.map_cons, List.cons.injEq, Prod.mk.injEq] at hm
      obtain ⟨⟨hk, ha⟩, hes⟩ := hm
      cases e₁ with
      | mk a₁ x₁ =>
        cases e with
        | mk a x =>
          simp only at hk ha
          subst hk
          rw [imGet_cons, imGet_cons]
          by_cases hak : a₁ = k
          · rw [if_pos hak, if_pos hak]
            simp [ha]
          · rw [if_neg hak, if_neg hak]
            exact ih es hes

theorem lookupAdj_congr_view (L₁ L : Hyp) (hv : levelView L₁ = levelView L) (k : Nat) :
    lookupAdj L₁ k = lookupAdj L k := by
  unfold levelView at hv
  simp only [Prod.mk.injEq] at hv
  obtain ⟨-, hnodes, hedges, hlinks, hhgs, -⟩ := hv
  have hmap := imGet_map_keyAdj L₁.hgs L.hgs hhgs k
  unfold lookupAdj
  rw [hnodes, hedges]
  cases imGet L.edges k with
  | some ev => rfl
  | none =>
    cases h₁ : imGet L₁.hgs k with
    | none =>
      cases h₀ : imGet L.hgs k with
      | none => rfl
      | some gv =>
        rw [h₁, h₀] at hmap
        simp at hmap
    | some gv₁ =>
      cases h₀ : imGet L.hgs k with
      | none =>
        rw [h₁, h₀] at hmap
        simp at hmap
      | some gv =>
        rw [h₁, h₀] at hmap
        simp only [Option.map_some', Option.some.injEq] at hmap
        simp [hmap]

theorem getLast?_decomp (p : Path) (k : Nat) (hpl : p.getLast? = some k) :
    p = p.dropLast ++ [k] := by
  induction p with
  | nil => cases hpl
  | cons a p' ih =>
    cases p' with
    | nil =>
      simp only [List.getLast?_singleton, Option.some.injEq] at hpl
      subst hpl
      rfl
    | cons b p'' =>
      rw [List.getLast?_cons_cons] at hpl
      have := ih hpl
      rw [List.dropLast_cons₂, List.cons_append, ← this]

theorem getLast?_concat_eq (q : Path) (k : Nat) : (q ++ [k]).getLast? = some k := by
  simp

theorem isEmpty_false_of_ne (p : Path) (hne : p ≠ []) : p.isEmpty = false := by
  cases p with
  | nil => exact absurd rfl hne
  | cons a p' => rfl

theorem containsSubhypergraph_ne (h : Hyp) (p : Path) (hne : p ≠ []) :
    containsSubhypergraph h p = (descend h p).isSome := by
  cases p with
  | nil => exact absurd rfl hne
  | cons a p' => rfl

theorem hypergraphOf_ne (h : Hyp) (p : Path) (hne : p ≠ []) :
    hypergraphOf h p = match descend h p.dropLast with
      | none => .error (.NoHypergraph p.dropLast)
      | some lv => .ok lv := by
  cases p with
  | nil => exact absurd rfl hne
  | cons a p' => rfl

/-- `contains_linkable` is exactly definedness of the adjacency view. -/
theorem containsLinkable_eq_adjOf (h : Hyp) (p : Path) :
    containsLinkable h p = (adjOf h p).isSome := by
  cases hpl : p.getLast? with
  | none =>
    cases p with
    | nil => rfl
    | cons a p' =>
      rw [show (a :: p').getLast? = some ((a :: p').getLast (by simp)) from
        List.getLast?_eq_getLast _ _] at hpl
      cases hpl
  | some k =>
    have hne : p ≠ [] := by
      intro hh
      rw [hh] at hpl
      cases hpl
    have hdec := getLast?_decomp p k hpl
    have hds : descend h p = (descend h p.dropLast).bind (fun lv => descend lv [k]) := by
      conv_lhs => rw [hdec]
      rw [descend_append]
    unfold containsLinkable containsEdge containsNode containsHypergraph adjOf
    rw [containsSubhypergraph_ne h p hne, isEmpty_false_of_ne p hne, hds]
    cases hd : descend h p.dropLast with
    | none => simp [hpl]
    | some lv =>
      simp only [hpl, Option.some_bind, Bool.not_false, Bool.true_and, Bool.false_or]
      unfold lookupAdj descend
      rw [imContainsKey_eq_isSome, imContainsKey_eq_isSome]
      cases hge : imGet lv.edges k with
      | some ev => simp [hge]
      | none =>
        simp only [hge, Option.isSome_none, Bool.false_or]
        cases hgk : imGet lv.hgs k with
        | none => simp [hgk]
        | some gv =>
          cases gv with
          | mk sub adj => simp [hgk, descend]

/-- `links_of` succeeds exactly on the adjacency view (`src/hypergraph/get.rs`). -/
theorem linksOfE_eq_ok_iff (h : Hyp) (p : Path) (l : List (Path × Direction)) :
    linksOfE h p = .ok l ↔ adjOf h p = some l := by
  unfold linksOfE
  rw [containsLinkable_eq_adjOf]
  cases hao : adjOf h p with
  | none =>
    simp only [Option.isSome_none, Bool.not_false]
    simp only [if_true]
    constructor
    · intro hh; cases hh
    · intro hh; cases hh
  | some l0 =>
    simp only [Option.isSome_some, Bool.not_true]
    rw [if_neg (by simp)]
    cases hpl : p.getLast? with
    | none =>
      unfold adjOf at hao
      rw [hpl] at hao
      cases hao
    | some k =>
      cases hd : descend h p.dropLast with
      | none =>
        unfold adjOf at hao
        rw [hpl, hd] at hao
        cases hao
      | some lv =>
        have hne : p ≠ [] := by
          intro hh; rw [hh] at hpl; cases hpl
        have hlk : lookupAdj lv k = some l0 := by
          unfold adjOf at hao
          rw [hpl, hd] at hao
          exact hao
        rw [hypergraphOf_ne h p hne]
        simp only [hpl, hd]
        unfold lookupAdj at hlk
        cases hge : imGet lv.edges k with
        | some ev =>
          rw [hge] at hlk
          simp at hlk
          simp [hge, hlk, eq_comm]
        | none =>
          rw [hge] at hlk
          cases hgg : imGet lv.hgs k with
          | some gv =>
            rw [hgg] at hlk
            simp at hlk
            simp [hge, hgg, hlk, eq_comm]
          | none =>
            rw [hgg] at hlk
            cases hgn : imGet lv.nodes k with
            | some nv =>
              rw [hgn] at hlk
              simp at hlk
              simp [hge, hgg, hgn, hlk, eq_comm]
            | none =>
              rw [hgn] at hlk
              simp at hlk

/-- `link_endpoints` succeeds on the link-slot view. -/
theorem linkEndpointsE_of_linkOf (h : Hyp) (p : Path) (w : Option String)
    (a c : Path) (hl : linkOf h p = some (w, a, c)) :
    linkEndpointsE h p = .ok (a, c) := by
  cases hpl : p.getLast? with
  | none =>
    unfold linkOf at hl
    rw [hpl] at hl
    cases hl
  | some k =>
    cases hd : descend h p.dropLast with
    | none =>
      unfold linkOf at hl
      rw [hpl, hd] at hl
      cases hl
    | some lv =>
      have hne : p ≠ [] := by
        intro hh; rw [hh] at hpl; cases hpl
      have hlk : imGet lv.links k = some (w, a, c) := by
        unfold linkOf at hl
        rw [hpl, hd] at hl
        exact hl
      have hcl : containsLink h p = true := by
        unfold containsLink
        rw [hpl, hd]
        show imContainsKey lv.links k = true
        rw [imContainsKey_eq_isSome, hlk]
        rfl
      unfold linkEndpointsE
      rw [hcl]
      simp only [Bool.not_true]
      rw [if_neg (by simp)]
      rw [hypergraphOf_ne h p hne]
      simp only [hpl, hd, hlk]

theorem links_eq_of_view (L₁ L : Hyp) (hv : levelView L₁ = levelView L) :
    L₁.links = L.links := by
  unfold levelView at hv
  simp only [Prod.mk.injEq] at hv
  exact hv.2.2.2.1

theorem imGet_eq_none_of_not_contains {α : Type} (m : List (Nat × α)) (k : Nat)
    (hc : ¬ imContainsKey m k = true) : imGet m k = none := by
  rw [imContainsKey_eq_isSome] at hc
  cases hx : imGet m k with
  | none => rfl
  | some v => rw [hx] at hc; exact absurd rfl hc

/-- After a successful `extractAt` mutation at `q`, every level of the
result corresponds to a level of the original: outside the spine it is
literally unchanged or view-equal, at `q` it is the mutated level. -/
theorem level_corr (q : Path) (h h₁ lv lv₁ : Hyp)
    (hdes : descend h q = some lv)
    (hr : ∀ r, descend h₁ (q ++ r) = if r.isEmpty then some lv₁ else descend lv₁ r)
    (hview : ∀ p, containsOrEquals q p = false →
      (descend h₁ p).map levelView = (descend h p).map levelView)
    (hd1 : ∀ rr, rr ≠ [] → descend lv₁ rr = descend lv rr)
    (d : Path) :
    descend h₁ d = descend h d ∨
    (descend h₁ d = some lv₁ ∧ descend h d = some lv ∧ d = q) ∨
    (∃ L₁ L, descend h₁ d = some L₁ ∧ descend h d = some L ∧
      levelView L₁ = levelView L) := by
  by_cases hco : containsOrEquals q d = true
  · obtain ⟨r, hrr⟩ := (containsOrEquals_iff q d).mp hco
    cases r with
    | nil =>
      right; left
      refine ⟨?_, ?_, by simpa using hrr⟩
      · rw [hrr]
        simpa using hr []
      · rw [hrr]
        simpa using hdes
    | cons a rr =>
      left
      rw [hrr, hr (a :: rr)]
      simp only [List.isEmpty_cons, Bool.false_eq_true, if_false]
      rw [hd1 (a :: rr) (by simp), descend_append, hdes]
      rfl
  · have hco' : containsOrEquals q d = false := by
      cases hcc : containsOrEquals q d
      · rfl
      · exact absurd hcc hco
    have hv := hview d hco'
    cases hd1' : descend h₁ d with
    | none =>
      cases hd0 : descend h d with
      | none =>
        left
        rfl
      | some L =>
        rw [hd1', hd0] at hv
        simp at hv
    | some L₁ =>
      cases hd0 : descend h d with
      | none =>
        rw [hd1', hd0] at hv
        simp at hv
      | some L =>
        rw [hd1', hd0] at hv
        simp only [Option.map_some', Option.some.injEq] at hv
        right; right
        exact ⟨L₁, L, rfl, rfl, hv⟩

/-- Effect of `add_local_neighbor_unchecked` on a level: the adjacency of
`K` gains `i` at the tail, everything else of the level is unchanged. -/
theorem addLocalNeighbor_spec (l : Hyp) (K : Nat) (i : Path × Direction) (l₁ : Hyp)
    (hN : addLocalNeighbor l K i = some l₁) :
    (∀ rr, rr ≠ [] → descend l₁ rr = descend l rr) ∧
    lookupAdj l₁ K = (lookupAdj l K).map (fun a => a ++ [i]) ∧
    (∀ k, k ≠ K → lookupAdj l₁ k = lookupAdj l k) ∧
    l₁.links = l.links := by
  unfold addLocalNeighbor at hN
  by_cases he : imContainsKey l.edges K = true
  · rw [if_pos he] at hN
    simp only [Option.some.injEq] at hN
    subst hN
    rw [imContainsKey_eq_isSome] at he
    cases hge : imGet l.edges K with
    | none => rw [hge] at he; cases he
    | some ev =>
      refine ⟨?_, ?_, ?_, by simp⟩
      · intro rr hrr
        cases rr with
        | nil => exact absurd rfl hrr
        | cons a rest => simp [descend]
      · simp [lookupAdj, imGet_imModify_self, hge]
      · intro k hk
        simp [lookupAdj, imGet_imModify_ne l.edges K k _ hk]
  · rw [if_neg he] at hN
    have hee : imGet l.edges K = none := imGet_eq_none_of_not_contains _ _ he
    by_cases hg : imContainsKey l.hgs K = true
    · rw [if_pos hg] at hN
      simp only [Option.some.injEq] at hN
      subst hN
      rw [imContainsKey_eq_isSome] at hg
      cases hgg : imGet l.hgs K with
      | none => rw [hgg] at hg; cases hg
      | some gv =>
        cases gv with
        | mk sub adj =>
          refine ⟨?_, ?_, ?_, by simp⟩
          · intro rr hrr
            cases rr with
            | nil => exact absurd rfl hrr
            | cons a rest =>
              simp only [descend, withHgs_hgs]
              by_cases hak : a = K
              · subst hak
                rw [imGet_imModify_self, hgg]
                rfl
              · rw [imGet_imModify_ne l.hgs K a _ hak]
          · simp [lookupAdj, imGet_imModify_self, hgg, hee]
          · intro k hk
            simp [lookupAdj, imGet_imModify_ne l.hgs K k _ hk]
    · rw [if_neg hg] at hN
      have hgg : imGet l.hgs K = none := imGet_eq_none_of_not_contains _ _ hg
      by_cases hn : imContainsKey l.nodes K = true
      · rw [if_pos hn] at hN
        simp only [Option.some.injEq] at hN
        subst hN
        rw [imContainsKey_eq_isSome] at hn
        cases hgn : imGet l.nodes K with
        | none => rw [hgn] at hn; cases hn
        | some nv =>
          refine ⟨?_, ?_, ?_, by simp⟩
          · intro rr hrr
            cases rr with
            | nil => exact absurd rfl hrr
            | cons a rest => simp [descend]
          · simp [lookupAdj, imGet_imModify_self, hgn, hee, hgg]
          · intro k hk
            simp [lookupAdj, imGet_imModify_ne l.nodes K k _ hk]
      · rw [if_neg hn] at hN
        cases hN

/-- Effect of `add_local_element` for a link on a level: the link is stored
under the running local id, adjacency and nested hypergraphs unchanged. -/
theorem addLocalLink_spec (l : Hyp) (s t : Path) (v : Option String) :
    (∀ rr, rr ≠ [] →
      descend (addLocalElement l (.Link s t v)).1 rr = descend l rr) ∧
    (∀ k, lookupAdj (addLocalElement l (.Link s t v)).1 k = lookupAdj l k) ∧
    imGet (addLocalElement l (.Link s t v)).1.links l.nextIdC = some (v, s, t) := by
  refine ⟨?_, ?_, ?_⟩
  · intro rr hrr
    cases rr with
    | nil => exact absurd rfl hrr
    | cons a rest => simp [addLocalElement, descend]
  · intro k
    simp [addLocalElement, lookupAdj]
  · simp [addLocalElement, imGet_imInsert_self]

/-- A successful `extractAt` whose local mutation pushes `i` onto the
adjacency of `K` pushes exactly at `q ++ [K]` and preserves every other
adjacency read and every link slot. -/
theorem extractAt_adjOf_push {β : Type} (q : Path) (h : Hyp)
    (f : Hyp → Option (β × Hyp)) (b : β) (h₁ : Hyp) (K : Nat) (i : Path × Direction)
    (hX : extractAt h q f = some (b, h₁))
    (hfd : ∀ lv b' lv₁, f lv = some (b', lv₁) →
      (∀ rr, rr ≠ [] → descend lv₁ rr = descend lv rr) ∧
      lookupAdj lv₁ K = (lookupAdj lv K).map (fun a => a ++ [i]) ∧
      (∀ k, k ≠ K → lookupAdj lv₁ k = lookupAdj lv k) ∧
      lv₁.links = lv.links) :
    adjOf h₁ (q ++ [K]) = (adjOf h (q ++ [K])).map (fun a => a ++ [i]) ∧
    (∀ p, p ≠ q ++ [K] → adjOf h₁ p = adjOf h p) ∧
    (∀ p, linkOf h₁ p = linkOf h p) := by
  obtain ⟨lv, lv₁, hdes, hf, hr, hview⟩ := extractAt_spec q h f b h₁ hX
  obtain ⟨hd1, haK, hak, hl1⟩ := hfd lv b lv₁ hf
  have h1q : descend h₁ q = some lv₁ := by simpa using hr []
  refine ⟨?_, ?_, ?_⟩
  · unfold adjOf
    rw [getLast?_concat_eq, List.dropLast_concat, h1q, hdes]
    exact haK
  · intro p hp
    have hcorr := level_corr q h h₁ lv lv₁ hdes hr hview hd1 p.dropLast
    unfold adjOf
    cases hpl : p.getLast? with
    | none => rfl
    | some k =>
      rcases hcorr with heq | ⟨h1d, h0d, hdq⟩ | ⟨L₁, L, h1d, h0d, hv⟩
      · rw [heq]
      · rw [h1d, h0d]
        have hkK : k ≠ K := by
          intro hh
          apply hp
          rw [getLast?_decomp p k hpl, hdq, hh]
        exact hak k hkK
      · rw [h1d, h0d]
        exact lookupAdj_congr_view L₁ L hv k
  · intro p
    have hcorr := level_corr q h h₁ lv lv₁ hdes hr hview hd1 p.dropLast
    unfold linkOf
    cases hpl : p.getLast? with
    | none => rfl
    | some k =>
      rcases hcorr with heq | ⟨h1d, h0d, -⟩ | ⟨L₁, L, h1d, h0d, hv⟩
      · rw [heq]
      · rw [h1d, h0d]
        show imGet lv₁.links k = imGet lv.links k
        rw [hl1]
      · rw [h1d, h0d]
        show imGet L₁.links k = imGet L.links k
        rw [links_eq_of_view L₁ L hv]

/-- A successful `extractAt` whose local mutation stores a link under local
id `n` and touches nothing else preserves every adjacency read and makes
the slot `q ++ [n]` hold the link. -/
theorem extractAt_insert_link {β : Type} (q : Path) (h : Hyp)
    (f : Hyp → Option (β × Hyp)) (b : β) (h₁ : Hyp) (n : Nat)
    (w : Option String × Path × Path) (lv : Hyp)
    (hX : extractAt h q f = some (b, h₁))
    (hdes : descend h q = some lv)
    (hfd : ∀ b' lv₁, f lv = some (b', lv₁) →
      (∀ rr, rr ≠ [] → descend lv₁ rr = descend lv rr) ∧
      (∀ k, lookupAdj lv₁ k = lookupAdj lv k) ∧
      imGet lv₁.links n = some w) :
    (∀ p, adjOf h₁ p = adjOf h p) ∧ linkOf h₁ (q ++ [n]) = some w := by
  obtain ⟨lv', lv₁, hdes', hf, hr, hview⟩ := extractAt_spec q h f b h₁ hX
  rw [hdes] at hdes'
  injection hdes' with hlv
  subst hlv
  obtain ⟨hd1, ha1, hln⟩ := hfd b lv₁ hf
  have h1q : descend h₁ q = some lv₁ := by simpa using hr []
  constructor
  · intro p
    have hcorr := level_corr q h h₁ lv lv₁ hdes hr hview hd1 p.dropLast
    unfold adjOf
    cases hpl : p.getLast? with
    | none => rfl
    | some k =>
      rcases hcorr with heq | ⟨h1d, h0d, -⟩ | ⟨L₁, L, h1d, h0d, hv⟩
      · rw [heq]
      · rw [h1d, h0d]
        exact ha1 k
      · rw [h1d, h0d]
        exact lookupAdj_congr_view L₁ L hv k
  · unfold linkOf
    rw [getLast?_concat_eq, List.dropLast_concat, h1q]
    exact hln

/-- Effect of the `hypergraph_of_mut(..).add_local_neighbor_unchecked` call
used by the link branch: push at exactly `p`, preserve everything else. -/
theorem pushAdj_spec (h : Hyp) (p : Path) (i : Path × Direction) (h₁ : Hyp)
    (hp : pushAdj h p i = some h₁) :
    adjOf h₁ p = (adjOf h p).map (fun a => a ++ [i]) ∧
    (∀ r, r ≠ p → adjOf h₁ r = adjOf h r) ∧
    (∀ r, linkOf h₁ r = linkOf h r) := by
  unfold pushAdj at hp
  cases hpl : p.getLast? with
  | none => rw [hpl] at hp; cases hp
  | some k =>
    rw [hpl] at hp
    have hp' : (extractAt h p.dropLast
        (fun lv => (addLocalNeighbor lv k i).map (fun lv' => ((), lv')))).map
        (fun x => x.2) = some h₁ := hp
    obtain ⟨a, hX, hEq⟩ := Option.map_eq_some'.mp hp'
    obtain ⟨u, hh⟩ := a
    cases hEq
    rw [getLast?_decomp p k hpl]
    apply extractAt_adjOf_push p.dropLast h _ u hh k i hX
    intro lv b' lv₁ heq
    obtain ⟨lv', hN, hEq2⟩ := Option.map_eq_some'.mp heq
    have hlv₁ : lv₁ = lv' := by
      have h2 : ((), lv') = (b', lv₁) := hEq2
      have h3 := congrArg Prod.snd h2
      simpa using h3.symm
    rw [hlv₁]
    exact addLocalNeighbor_spec lv k i lv' hN

/-- Effect of the `modify-at-loc` step of the link branch: adjacency reads
unchanged, the fresh link slot holds the link. -/
theorem modifyAt_insert_link (h : Hyp) (q s t : Path) (v : Option String)
    (lv h₁ : Hyp) (hdes : descend h q = some lv)
    (hm : modifyAt h q (fun l => (addLocalElement l (.Link s t v)).1) = some h₁) :
    (∀ p, adjOf h₁ p = adjOf h p) ∧
    linkOf h₁ (q ++ [lv.nextIdC]) = some (v, s, t) := by
  rw [modifyAt_eq_extractAt] at hm
  obtain ⟨a, hX, hEq⟩ := Option.map_eq_some'.mp hm
  obtain ⟨u, hh⟩ := a
  cases hEq
  apply extractAt_insert_link q h _ u hh lv.nextIdC (v, s, t) lv hX hdes
  intro b' lv₁ heq
  have heq' : some (PUnit.unit, (addLocalElement lv (.Link s t v)).1) =
      some (b', lv₁) := heq
  have hlv₁ : lv₁ = (addLocalElement lv (.Link s t v)).1 := by
    have h3 := congrArg Prod.snd (Option.some.inj heq')
    simpa using h3.symm
  rw [hlv₁]
  exact addLocalLink_spec lv s t v

/-- Composite effect of the unchecked link branch
(`add_element_in_unchecked`, `Element::Link`): the new slot holds the
link, and the source and target adjacencies gain the outgoing resp.
incoming entry at the tail (both on the same list for a self-link). -/
theorem addLinkUnchecked_effect (h : Hyp) (s t : Path) (v : Option String)
    (loc ℓ : Path) (h' : Hyp)
    (hU : addElementInUnchecked h (.Link s t v) loc = some (ℓ, h')) :
    linkOf h' ℓ = some (v, s, t) ∧
    (s ≠ t →
      adjOf h' s = (adjOf h s).map (fun a => a ++ [(ℓ, .Outgoing)]) ∧
      adjOf h' t = (adjOf h t).map (fun a => a ++ [(ℓ, .Incoming)])) ∧
    (s = t →
      adjOf h' s =
        (adjOf h s).map (fun a => a ++ [(ℓ, .Outgoing), (ℓ, .Incoming)])) := by
  unfold addElementInUnchecked at hU
  cases hdes : descend h loc with
  | none => rw [hdes] at hU; cases hU
  | some lv =>
    simp only [hdes] at hU
    cases hm : modifyAt h loc (fun l => (addLocalElement l (.Link s t v)).1) with
    | none => rw [hm] at hU; cases hU
    | some h1 =>
      simp only [hm] at hU
      cases hp2 : pushAdj h1 s (loc ++ [lv.nextIdC], .Outgoing) with
      | none => rw [hp2] at hU; cases hU
      | some h2 =>
        simp only [hp2] at hU
        cases hp3 : pushAdj h2 t (loc ++ [lv.nextIdC], .Incoming) with
        | none => rw [hp3] at hU; cases hU
        | some h3 =>
          simp only [hp3, Option.map_some', Option.some.injEq,
            Prod.mk.injEq] at hU
          obtain ⟨hℓ, hh3⟩ := hU
          subst hℓ
          subst hh3
          obtain ⟨hins_adj, hins_link⟩ :=
            modifyAt_insert_link h loc s t v lv h1 hdes hm
          obtain ⟨hp2_push, hp2_pres, hp2_link⟩ := pushAdj_spec h1 s _ h2 hp2
          obtain ⟨hp3_push, hp3_pres, hp3_link⟩ := pushAdj_spec h2 t _ h3 hp3
          refine ⟨?_, ?_, ?_⟩
          · rw [hp3_link, hp2_link, hins_link]
          · intro hst
            constructor
            · rw [hp3_pres s hst, hp2_push, hins_adj s]
            · rw [hp3_push, hp2_pres t (fun hh => hst hh.symm), hins_adj t]
          · intro hst
            subst hst
            rw [hp3_push, hp2_push, hins_adj s]
            cases adjOf h s with
            | none => rfl
            | some a => simp

/-- A successful `add_element_in` ran the full validation pipeline and then
`add_element_in_unchecked`; in particular the unchecked engine succeeded
with the same id and state. -/
theorem addElementIn_ok_inv (h : Hyp) (e : ElementExt) (loc : Path) (ℓ : Path)
    (h' : Hyp) (hadd : addElementIn h e loc = some (.ok ℓ, h')) :
    addElementInUnchecked h e loc = some (ℓ, h') := by
  unfold addElementIn at hadd
  by_cases hc : (!containsHypergraph h loc) = true
  · rw [if_pos hc] at hadd
    simp at hadd
  · rw [if_neg hc] at hadd
    have hfin : (addElementInUnchecked h e loc).map
        (fun r => ((Except.ok r.1 : Except AddErr Path), r.2)) =
          some (.ok ℓ, h') → addElementInUnchecked h e loc = some (ℓ, h') := by
      intro hmap
      cases hu : addElementInUnchecked h e loc with
      | none => rw [hu] at hmap; cases hmap
      | some r =>
        rw [hu] at hmap
        simp only [Option.map_some', Option.some.injEq, Prod.mk.injEq,
          Except.ok.injEq] at hmap
        rw [← hmap.1, ← hmap.2]
    by_cases hnh : (e.isNode || e.isHypergraph) = true
    · rw [if_pos hnh] at hadd
      exact hfin hadd
    · rw [if_neg hnh] at hadd
      cases hsc : e.source with
      | none => rw [hsc] at hadd; cases htc : e.target <;> rw [htc] at hadd <;>
          cases hadd
      | some s =>
        cases htc : e.target with
        | none => rw [hsc, htc] at hadd; cases hadd
        | some t =>
          rw [hsc, htc] at hadd
          simp only [] at hadd
          by_cases h1 : s.isEmpty = true
          · rw [if_pos h1] at hadd
            simp at hadd
          · rw [if_neg h1] at hadd
            cases hsv : elementValueE h s with
            | error ee => rw [hsv] at hadd; simp at hadd
            | ok sv =>
              rw [hsv] at hadd
              simp only [] at hadd
              by_cases h2 : sv.isLink = true
              · rw [if_pos h2] at hadd
                simp at hadd
              · rw [if_neg h2] at hadd
                by_cases h3 : (sv.isEdge && e.isEdge) = true
                · rw [if_pos h3] at hadd
                  simp at hadd
                · rw [if_neg h3] at hadd
                  by_cases h4 : t.isEmpty = true
                  · rw [if_pos h4] at hadd
                    simp at hadd
                  · rw [if_neg h4] at hadd
                    cases htv : elementValueE h t with
                    | error ee => rw [htv] at hadd; simp at hadd
                    | ok tv =>
                      rw [htv] at hadd
                      simp only [] at hadd
                      by_cases h5 : tv.isLink = true
                      · rw [if_pos h5] at hadd
                        simp at hadd
                      · rw [if_neg h5] at hadd
                        by_cases h6 : (tv.isEdge && e.isEdge) = true
                        · rw [if_pos h6] at hadd
                          simp at hadd
                        · rw [if_neg h6] at hadd
                          by_cases h7 : (sv.isEdge && tv.isEdge && e.isLink) = true
                          · rw [if_pos h7] at hadd
                            simp at hadd
                          · rw [if_neg h7] at hadd
                            by_cases h8 : (e.isLink && (sv.isNode || sv.isHypergraph) &&
                                (tv.isNode || tv.isHypergraph)) = true
                            · rw [if_pos h8] at hadd
                              simp at hadd
                            · rw [if_neg h8] at hadd
                              by_cases h9 : (!(containsOrEquals loc s &&
                                  containsOrEquals loc t)) = true
                              · rw [if_pos h9] at hadd
                                simp at hadd
                              · rw [if_neg h9] at hadd
                                exact hfin hadd

/-- C8: links added after a neighbor walker returned `None` remain visible
to it.  For any state in which `links_of` succeeds on `s` and on `t`, a
walker over `s` with direction `Outgoing` (resp. over `t` with `Incoming`)
whose cursor sits at the end of the adjacency list returns `None` without
moving; after `add_link(s, t, v)` succeeds, the same walker's next
`walk_next` emits the opposite endpoint of the new link (`t` resp. `s`),
because the adjacency list is only appended to at the tail and the cursor
only advances past scanned entries. -/
theorem c8_walker_sees_link_added_after_none
    (h h' : Hyp) (s t : Path) (v : Option String) (loc ℓ : Path)
    (links tlinks : List (Path × Direction)) (fuel : Nat)
    (hadd : addElementIn h (.Link s t v) loc = some (.ok ℓ, h'))
    (hs : linksOfE h s = .ok links)
    (ht : linksOfE h t = .ok tlinks) :
    walkNextNbF (fuel + 1) .Outgoing links.length s h =
      some (none, links.length) ∧
    walkNextNbF (fuel + 1) .Incoming tlinks.length t h =
      some (none, tlinks.length) ∧
    walkNextNbF (fuel + 1) .Outgoing links.length s h' =
      some (some t, links.length + 1) ∧
    (∃ c, walkNextNbF (fuel + 2) .Incoming tlinks.length t h' =
      some (some s, c)) := by
  have hU := addElementIn_ok_inv h (.Link s t v) loc ℓ h' hadd
  obtain ⟨hlink, hne_eff, heq_eff⟩ := addLinkUnchecked_effect h s t v loc ℓ h' hU
  have hadjs : adjOf h s = some links := (linksOfE_eq_ok_iff h s links).mp hs
  have hadjt : adjOf h t = some tlinks := (linksOfE_eq_ok_iff h t tlinks).mp ht
  have hends : linkEndpointsE h' ℓ = .ok (s, t) :=
    linkEndpointsE_of_linkOf h' ℓ v s t hlink
  refine ⟨?_, ?_, ?_, ?_⟩
  · simp only [walkNextNbF, hs]
    rw [List.get?_eq_none.mpr (Nat.le_refl _)]
  · simp only [walkNextNbF, ht]
    rw [List.get?_eq_none.mpr (Nat.le_refl _)]
  · by_cases hst : s = t
    · have hS := heq_eff hst
      rw [hadjs] at hS
      simp only [Option.map_some'] at hS
      have hs' : linksOfE h' s =
          .ok (links ++ [(ℓ, .Outgoing), (ℓ, .Incoming)]) :=
        (linksOfE_eq_ok_iff h' s _).mpr hS
      simp only [walkNextNbF, hs']
      rw [show (links ++ [(ℓ, Direction.Outgoing), (ℓ, Direction.Incoming)]).get?
            links.length = some (ℓ, Direction.Outgoing) from by
        rw [List.get?_append_right (Nat.le_refl _), Nat.sub_self]
        rfl]
      simp [hends, ← hst]
    · obtain ⟨hS, hT⟩ := hne_eff hst
      rw [hadjs] at hS
      simp only [Option.map_some'] at hS
      have hs' : linksOfE h' s = .ok (links ++ [(ℓ, .Outgoing)]) :=
        (linksOfE_eq_ok_iff h' s _).mpr hS
      simp only [walkNextNbF, hs']
      rw [List.get?_concat_length]
      simp [hends]
  · by_cases hst : s = t
    · refine ⟨tlinks.length + 2, ?_⟩
      have hS := heq_eff hst
      rw [hadjs] at hS
      simp only [Option.map_some'] at hS
      have htl : tlinks = links := by
        rw [← hst, hadjs] at hadjt
        exact (Option.some.inj hadjt).symm
      have hs' : linksOfE h' s =
          .ok (links ++ [(ℓ, .Outgoing), (ℓ, .Incoming)]) :=
        (linksOfE_eq_ok_iff h' s _).mpr hS
      rw [← hst, htl]
      simp only [walkNextNbF, hs']
      rw [show (links ++ [(ℓ, Direction.Outgoing), (ℓ, Direction.Incoming)]).get?
            links.length = some (ℓ, Direction.Outgoing) from by
        rw [List.get?_append_right (Nat.le_refl _), Nat.sub_self]
        rfl]
      rw [show (links ++ [(ℓ, Direction.Outgoing), (ℓ, Direction.Incoming)]).get?
            (links.length + 1) = some (ℓ, Direction.Incoming) from by
        rw [List.get?_append_right (Nat.le_add_right _ _),
          Nat.add_sub_cancel_left]
        rfl]
      simp [hends]
    · refine ⟨tlinks.length + 1, ?_⟩
      obtain ⟨hS, hT⟩ := hne_eff hst
      rw [hadjt] at hT
      simp only [Option.map_some'] at hT
      have ht' : linksOfE h' t = .ok (tlinks ++ [(ℓ, .Incoming)]) :=
        (linksOfE_eq_ok_iff h' t _).mpr hT
      simp only [walkNextNbF, ht']
      rw [List.get?_concat_length]
      simp [hends]

/-- Witness for C8 on the base scenario: `add_link([0], [2], "x")` on
`sB3` produces link `[5]` and state `sBaseLink`; the stalled walkers over
`[0]` (outgoing) and `[2]` (incoming) then emit `[2]` resp. `[0]`. -/
theorem c8_walker_sees_link_added_after_none_witness :
    addElementIn sB3 (.Link [0] [2] (some "x")) [] =
      some (.ok [5], sBaseLink) ∧
    linksOfE sB3 [0] = .ok [([3], .Outgoing)] ∧
    linksOfE sB3 [2] = .ok [([3], .Incoming), ([4], .Outgoing)] ∧
    (walkNextNbF 1 .Outgoing 1 [0] sB3 = some (none, 1) ∧
     walkNextNbF 1 .Incoming 2 [2] sB3 = some (none, 2) ∧
     walkNextNbF 1 .Outgoing 1 [0] sBaseLink = some (some [2], 2) ∧
     (∃ c, walkNextNbF 2 .Incoming 2 [2] sBaseLink = some (some [0], c))) :=
  ⟨rfl, rfl, rfl,
    c8_walker_sees_link_added_after_none sB3 sBaseLink [0] [2] (some "x") []
      [5] [([3], .Outgoing)] [([3], .Incoming), ([4], .Outgoing)] 0
      rfl rfl rfl⟩

end FerretHG
